import Mathlib

/-!
Verification of the seating placement and identifier-generation engine of the
seat-allocation-sys repository.

Two engines are embedded:

* namespace `Algo` — a faithful shallow embedding of `algo/algo.py`
  (class `SeatingAlgorithm`): the `__init__` configuration processing
  (including roll-template inference from `start_rolls`), the column-major and
  row-major placement strategies of `generate_seating`, the positional
  `_calculate_paper_set` / `_calculate_batch` helpers, and
  `validate_constraints`.

* namespace `Core` — a model of `algo/core/algorithm/seating.py`, the engine
  actually imported by the API blueprints and the test-suite.  That file is
  not part of the sources available here (only its callers and tests are), so
  its definitions are modelled from the specification document; each such
  definition carries a doc comment starting `Modelled from the spec:`.

Python's mutable state is passed explicitly; machine integers are `Nat`
(all quantities involved are non-negative counts and the HTTP layer converts
request fields with `int(...)`); Python `dict`s keyed by batch number are
association lists; cells of the seating grid are `Seat` structures.
-/

/-- The two exam paper variants (`class PaperSet(Enum)` in the source). -/
inductive PaperSet where
  | A : PaperSet
  | B : PaperSet
deriving DecidableEq, Repr

/-- One grid cell, the `@dataclass Seat` of the source.  Field defaults match
the dataclass defaults. -/
structure Seat where
  row : Nat
  col : Nat
  batch : Option Nat := none
  paper_set : Option PaperSet := none
  block : Option Nat := none
  roll_number : Option String := none
  is_broken : Bool := false
  color : String := "#FFFFFF"
deriving DecidableEq, Repr

instance : Inhabited Seat := ⟨{ row := 0, col := 0 }⟩

/-- The seat literal both engines produce for a broken seat: marked, red,
and with `batch`, `paper_set`, `roll_number` all at their `None` defaults. -/
def brokenSeat (r c : Nat) : Seat :=
  { row := r, col := c, is_broken := true, color := "#FF0000" }

/-! ### Decimal rendering of naturals

`str(n)` on a Python int renders the decimal digits without leading zeros.
We embed it as `pyIntStr`, built from a fuel-driven digit-list function so
that it reduces by kernel computation, and prove it injective via an explicit
base-10 round trip. -/

/-- Big-endian list of base-10 digits of `n` (empty for `n = 0`); the first
argument is structural fuel, sufficient whenever `n ≤ fuel`. -/
def decDigitsGo : Nat → Nat → List Nat
  | 0, _ => []
  | fuel + 1, n => if n = 0 then [] else decDigitsGo fuel (n / 10) ++ [n % 10]

/-- Big-endian base-10 digits of `n`, rendering `0` as `[0]` (Python's
`str(0) = "0"`). -/
def decDigits (n : Nat) : List Nat :=
  if n = 0 then [0] else decDigitsGo (n + 1) n

/-- Value of a big-endian digit list. -/
def decVal (l : List Nat) : Nat :=
  l.foldl (fun a d => 10 * a + d) 0

/-- Digit-to-character table for decimal rendering. -/
def decDigitChar : Nat → Char
  | 0 => '0' | 1 => '1' | 2 => '2' | 3 => '3' | 4 => '4'
  | 5 => '5' | 6 => '6' | 7 => '7' | 8 => '8' | 9 => '9'
  | _ => '?'

/-- Embedding of Python's `str` on a non-negative int. -/
def pyIntStr (n : Nat) : String :=
  String.mk ((decDigits n).map decDigitChar)

/-- Embedding of Python's `str.zfill` on such a rendered value: left-pad with
zeros up to width `w` (no sign handling is needed for naturals). -/
def zfill (w : Nat) (s : String) : String :=
  if w ≤ s.length then s
  else String.mk (List.replicate (w - s.length) '0' ++ s.data)

/-- Embedding of Python's `str.strip` (with no argument): drop leading and
trailing whitespace. -/
def pyStrip (s : String) : String :=
  String.mk (((s.data.dropWhile Char.isWhitespace).reverse.dropWhile
    Char.isWhitespace).reverse)

/-! ### Assoc-list embedding of Python dicts -/

/-- Python `d.get(k, default)`. -/
def dictGetD {α : Type} (l : List (Nat × α)) (k : Nat) (d : α) : α :=
  ((l.find? (fun q => q.1 = k)).map (fun q => q.2)).getD d

/-- Python `d.get(k)` / `d[k]` presence-aware lookup. -/
def dictGet {α : Type} (l : List (Nat × α)) (k : Nat) : Option α :=
  (l.find? (fun q => q.1 = k)).map (fun q => q.2)

/-- Python `k in d`. -/
def dictHas {α : Type} (l : List (Nat × α)) (k : Nat) : Bool :=
  (dictGet l k).isSome

/-- Python `d[k] = v`: overwrite the entry if the key is present, else append
(insertion-ordered dict). -/
def dictSet {α : Type} (l : List (Nat × α)) (k : Nat) (v : α) : List (Nat × α) :=
  if dictHas l k then l.map (fun q => if q.1 = k then (k, v) else q)
  else l ++ [(k, v)]

/-- Python truthiness of an optional string: `None` and `""` are falsy. -/
def pyTruthyStr : Option String → Bool
  | none => false
  | some s => s ≠ ""

/-! ### Embedding of `str.format` for roll templates

The templates this engine builds and accepts use the named fields `prefix`,
`year` and `serial` only; `pyFormat` substitutes those and fails (modelling
the `KeyError`/`ValueError` that `str.format` raises, caught by the
source's `except`) on any other brace construct.  The source's fallback is a
plain `str.replace` of the serial placeholder. -/

def pyFormatGo (p y s : String) : Nat → List Char → Option (List Char)
  | 0, _ => none
  | _ + 1, [] => some []
  | fuel + 1, c :: rest =>
    if c = '\x7b' then
      match rest.dropWhile (fun c2 => c2 ≠ '\x7d') with
      | [] => none
      | _ :: tl =>
        let key := rest.takeWhile (fun c2 => c2 ≠ '\x7d')
        let val : Option String :=
          if key = "prefix".data then some p
          else if key = "year".data then some y
          else if key = "serial".data then some s
          else none
        match val with
        | none => none
        | some v => (pyFormatGo p y s fuel tl).map (fun r => v.data ++ r)
    else if c = '\x7d' then none
    else (pyFormatGo p y s fuel rest).map (fun r => c :: r)

/-- `template.format(prefix=p, year=y, serial=s)`, `none` when `str.format`
would raise.  The first argument of `pyFormatGo` is structural fuel,
sufficient whenever it exceeds the length of the remaining input. -/
def pyFormat (template p y s : String) : Option String :=
  (pyFormatGo p y s (template.data.length + 1) template.data).map String.mk

/-- The source's guarded formatting: `template.format(...)` with a fallback
`template.replace('{serial}', serial_str)` when formatting raises. -/
def formatRoll (template p y s : String) : String :=
  match pyFormat template p y s with
  | some r => r
  | none => template.replace "{serial}" s

/-! ### `Algo`: faithful embedding of `algo/algo.py` -/

namespace Algo

/-- `SeatingAlgorithm.DEFAULT_BATCH_COLORS`. -/
def DEFAULT_BATCH_COLORS : List (Nat × String) :=
  [(1, "#DBEAFE"), (2, "#DCFCE7"), (3, "#FEE2E2"), (4, "#FEF3C7"), (5, "#E9D5FF")]

/-- The constructor arguments of `SeatingAlgorithm.__init__`, with the
source's default values.  Quantities are `Nat` (the HTTP layer feeds the
constructor with `int(...)`-converted non-negative request fields). -/
structure AlgoParams where
  rows : Nat
  cols : Nat
  num_batches : Nat
  block_width : Nat := 3
  batch_by_column : Bool := true
  enforce_no_adjacent_batches : Bool := false
  roll_template : Option String := none
  batch_prefixes : List (Nat × String) := []
  year : Option Nat := none
  start_serial : Nat := 1001
  start_serials : List (Nat × Nat) := []
  start_rolls : List (Nat × String) := []
  serial_width : Nat := 4
  serial_mode : String := "per_batch"
  broken_seats : List (Nat × Nat) := []
  batch_student_counts : List (Nat × Nat) := []
  batch_colors : List (Nat × String) := []
deriving Repr

/-- The attribute state a `SeatingAlgorithm` instance holds after
`__init__`: constructor arguments plus the derived `blocks`,
`batch_templates`, and the possibly-updated `start_serials`, `serial_width`
and `batch_colors`. -/
structure AlgoCfg where
  rows : Nat
  cols : Nat
  num_batches : Nat
  block_width : Nat
  blocks : Nat
  batch_by_column : Bool
  enforce_no_adjacent_batches : Bool
  broken_seats : List (Nat × Nat)
  batch_student_counts : List (Nat × Nat)
  batch_colors : List (Nat × String)
  roll_template : Option String
  batch_prefixes : List (Nat × String)
  year : Option Nat
  start_serial : Nat
  start_serials : List (Nat × Nat)
  start_rolls : List (Nat × String)
  serial_width : Nat
  serial_mode : String
  batch_templates : List (Nat × String)
deriving Repr

/-- A `SeatingAlgorithm` instance: its configuration attributes and the
mutable `seating_plan`. -/
structure AlgoState where
  cfg : AlgoCfg
  seating_plan : List (List Seat)
deriving Repr

/-- `math.ceil(cols / block_width)` on positive integers. -/
def natCeilDiv (a b : Nat) : Nat := (a + b - 1) / b

/-- The `__init__` loop filling missing batch colors from the default
palette (`#E5E7EB` past the palette). -/
def addDefaultColors (nb : Nat) (colors : List (Nat × String)) : List (Nat × String) :=
  (List.range nb).foldl
    (fun acc i =>
      let b := i + 1
      if dictHas acc b then acc
      else dictSet acc b (dictGetD DEFAULT_BATCH_COLORS b "#E5E7EB"))
    colors

/-- The trailing run of decimal digits of a string (`re.search(r"(\d+)$", s)`). -/
def trailingDigits (s : String) : List Char :=
  (s.data.reverse.takeWhile Char.isDigit).reverse

/-- The characters before the trailing digit run. -/
def leadingPart (s : String) : String :=
  String.mk (s.data.take (s.data.length - (trailingDigits s).length))

/-- Numeric value of a digit run (`int(serial_digits)`). -/
def digitsVal (cs : List Char) : Nat :=
  cs.foldl (fun a c => 10 * a + (c.toNat - 48)) 0

/-- One iteration of the `__init__` loop over `start_rolls`, updating
`(batch_templates, start_serials, serial_width)`; `pw` is the raw
`serial_width` constructor argument (inference only happens when it is 0,
the source's `None`/`0` sentinel). -/
def startRollStep (pw : Nat)
    (acc : List (Nat × String) × List (Nat × Nat) × Nat) (e : Nat × String) :
    List (Nat × String) × List (Nat × Nat) × Nat :=
  let (tmpls, serials, width) := acc
  let s := pyStrip e.2
  let ds := trailingDigits s
  if ds = [] then acc
  else
    let tmpls2 := dictSet tmpls e.1 (leadingPart s ++ "{serial}")
    let serials2 := if dictHas serials e.1 then serials
      else serials ++ [(e.1, digitsVal ds)]
    let width2 := if pw = 0 then max width ds.length else width
    (tmpls2, serials2, width2)

/-- `SeatingAlgorithm.__init__`: normalizes `block_width`, derives `blocks`,
fills default batch colors, and infers per-batch roll templates and starting
serials from `start_rolls`. -/
def mkAlgo (p : AlgoParams) : AlgoState :=
  let bw := max 1 p.block_width
  let inferred := p.start_rolls.foldl (startRollStep p.serial_width)
    ([], p.start_serials, max 0 p.serial_width)
  { cfg :=
    { rows := p.rows
      cols := p.cols
      num_batches := p.num_batches
      block_width := bw
      blocks := natCeilDiv p.cols bw
      batch_by_column := p.batch_by_column
      enforce_no_adjacent_batches := p.enforce_no_adjacent_batches
      broken_seats := p.broken_seats
      batch_student_counts := p.batch_student_counts
      batch_colors := addDefaultColors p.num_batches p.batch_colors
      roll_template := p.roll_template
      batch_prefixes := p.batch_prefixes
      year := p.year
      start_serial := p.start_serial
      start_serials := inferred.2.1
      start_rolls := p.start_rolls
      serial_width := inferred.2.2
      serial_mode := p.serial_mode
      batch_templates := inferred.1 }
    seating_plan := [] }

end Algo

namespace Algo

/-- The `effective_template` computed (identically in every iteration) in the
queue-building loop of `generate_seating`: the configured `roll_template`,
or a default `prefix/year` template when prefixes and a year are configured
and no truthy template was given. -/
def effectiveTemplate (cfg : AlgoCfg) : Option String :=
  if ¬ pyTruthyStr cfg.roll_template ∧ cfg.batch_prefixes ≠ [] ∧ cfg.year.isSome
  then some "\x7bprefix\x7d{year}O{serial}" else cfg.roll_template

/-- `self.batch_templates.get(b, effective_template)`. -/
def batchTemplate (cfg : AlgoCfg) (b : Nat) : Option String :=
  match dictGet cfg.batch_templates b with
  | some t => some t
  | none => effectiveTemplate cfg

/-- `cols_per_batch[i]` of `generate_seating`. -/
def colsPerBatch (cfg : AlgoCfg) (i : Nat) : Nat :=
  cfg.cols / cfg.num_batches + (if i < cfg.cols % cfg.num_batches then 1 else 0)

/-- `batch_sizes[b-1]` of `generate_seating`. -/
def batchSize (cfg : AlgoCfg) (b : Nat) : Nat :=
  colsPerBatch cfg (b - 1) * cfg.rows

/-- `batch_limits[b]`: the `batch_student_counts` cap when that (truthy) dict
supplies one, else the batch's column share. -/
def batchLimit (cfg : AlgoCfg) (b : Nat) : Nat :=
  if cfg.batch_student_counts ≠ [] ∧ dictHas cfg.batch_student_counts b
  then dictGetD cfg.batch_student_counts b 0
  else batchSize cfg b

/-- `self.year or ''` rendered into the template (Python `or` treats `0` as
falsy). -/
def yearStr (cfg : AlgoCfg) : String :=
  match cfg.year with
  | some y => if y = 0 then "" else pyIntStr y
  | none => ""

/-- `self.batch_prefixes.get(b, '')`. -/
def prefixOf (cfg : AlgoCfg) (b : Nat) : String :=
  dictGetD cfg.batch_prefixes b ""

/-- `str(serial_val).zfill(self.serial_width) if self.serial_width else
str(serial_val)`. -/
def serialStr (cfg : AlgoCfg) (v : Nat) : String :=
  if cfg.serial_width ≠ 0 then zfill cfg.serial_width (pyIntStr v) else pyIntStr v

/-- `SeatingAlgorithm._calculate_paper_set`: positional alternation inside
each block. -/
def calcPaperSet (cfg : AlgoCfg) (r c : Nat) : PaperSet :=
  let col_in_block := c % cfg.block_width
  if r % 2 = 0 then (if col_in_block % 2 = 0 then PaperSet.A else PaperSet.B)
  else (if col_in_block % 2 = 0 then PaperSet.B else PaperSet.A)

/-- `SeatingAlgorithm._calculate_batch` (row-major strategy). -/
def calcBatch (cfg : AlgoCfg) (r c : Nat) : Nat :=
  if cfg.num_batches ≤ 1 then 1 else (r + c) % cfg.num_batches + 1

/-- One iteration of the queue-building loop: plain numeric rolls when the
batch's template is falsy, eagerly formatted rolls in `per_batch` mode, and
an empty queue (with the shared counter untouched) in `global` mode. -/
def buildQueuesStep (cfg : AlgoCfg) (acc : (Nat → List String) × Nat) (i : Nat) :
    (Nat → List String) × Nat :=
  let (qs, nr) := acc
  let b := i + 1
  let size := batchSize cfg b
  let bt := batchTemplate cfg b
  if ¬ pyTruthyStr bt then
    (Function.update qs b ((List.range size).map (fun j => pyIntStr (nr + j))), nr + size)
  else if cfg.serial_mode = "per_batch" then
    let s0 := dictGetD cfg.start_serials b cfg.start_serial
    (Function.update qs b ((List.range size).map
      (fun j => formatRoll (bt.getD "") (prefixOf cfg b) (yearStr cfg)
        (serialStr cfg (s0 + j)))), nr + size)
  else
    (Function.update qs b [], nr)

/-- `batch_queues` and the value of `next_roll` after the queue-building
loop of `generate_seating`. -/
def initQueues (cfg : AlgoCfg) : (Nat → List String) × Nat :=
  (List.range cfg.num_batches).foldl (buildQueuesStep cfg) ((fun _ => []), cfg.start_serial)

/-- The mutable fill state of the column-major loop: `batch_allocated`,
`batch_queues` and the `next_roll` counter. -/
structure FillSt where
  alloc : Nat → Nat
  queues : Nat → List String
  nextRoll : Nat

/-- Fill state right before the column-major loop starts. -/
def initFillSt (cfg : AlgoCfg) : FillSt :=
  { alloc := fun _ => 0, queues := (initQueues cfg).1, nextRoll := (initQueues cfg).2 }

/-- The body of the column-major loop of `generate_seating` for one seat:
broken seats are marked and skipped, seats past the batch limit become
unallocated, otherwise a roll is generated on the fly (`global` mode with a
truthy template) or dequeued, with an empty queue again yielding an
unallocated seat. -/
def fillSeat (cfg : AlgoCfg) (st : FillSt) (r c : Nat) : Seat × FillSt :=
  if (r, c) ∈ cfg.broken_seats then
    ({ row := r, col := c, is_broken := true, color := "#FF0000" }, st)
  else
    let b := c % cfg.num_batches + 1
    if batchLimit cfg b ≤ st.alloc b then
      ({ row := r, col := c, batch := some b,
         paper_set := some (calcPaperSet cfg r c),
         block := some (c / cfg.block_width), roll_number := none,
         color := "#F3F4F6" }, st)
    else
      let bt := batchTemplate cfg b
      if pyTruthyStr bt ∧ cfg.serial_mode = "global" then
        let rn := formatRoll (bt.getD "") (prefixOf cfg b) (yearStr cfg)
          (serialStr cfg st.nextRoll)
        ({ row := r, col := c, batch := some b,
           paper_set := some (calcPaperSet cfg r c),
           block := some (c / cfg.block_width), roll_number := some rn,
           color := dictGetD cfg.batch_colors b "#E5E7EB" },
         { st with nextRoll := st.nextRoll + 1,
                   alloc := Function.update st.alloc b (st.alloc b + 1) })
      else
        match st.queues b with
        | rn :: rest =>
          ({ row := r, col := c, batch := some b,
             paper_set := some (calcPaperSet cfg r c),
             block := some (c / cfg.block_width), roll_number := some rn,
             color := dictGetD cfg.batch_colors b "#E5E7EB" },
           { st with queues := Function.update st.queues b rest,
                     alloc := Function.update st.alloc b (st.alloc b + 1) })
        | [] =>
          ({ row := r, col := c, batch := some b,
             paper_set := some (calcPaperSet cfg r c),
             block := some (c / cfg.block_width), roll_number := none,
             color := "#F3F4F6" }, st)

/-- State transition of one seat of the column-major loop. -/
def stepSt (cfg : AlgoCfg) (st : FillSt) (q : Nat × Nat) : FillSt :=
  (fillSeat cfg st q.1 q.2).2

/-- The `(row, col)` pairs the column-major loop visits strictly before
row `r` of column `c` (columns are outer, rows inner). -/
def posBefore (cfg : AlgoCfg) (c r : Nat) : List (Nat × Nat) :=
  (List.range c).flatMap (fun c2 => (List.range cfg.rows).map (fun r2 => (r2, c2))) ++
    (List.range r).map (fun r2 => (r2, c))

/-- Fill state when the column-major loop reaches row `r` of column `c`. -/
def stateBefore (cfg : AlgoCfg) (c r : Nat) : FillSt :=
  (posBefore cfg c r).foldl (stepSt cfg) (initFillSt cfg)

/-- The seat the column-major loop writes into `seating_plan[r][c]` (each
cell is written exactly once, with the fill state current at its turn). -/
def seatAt (cfg : AlgoCfg) (r c : Nat) : Seat :=
  (fillSeat cfg (stateBefore cfg c r) r c).1

/-- The finished column-major `seating_plan` (row-major nested list, exactly
as the source preallocates `rows` lists of `cols` cells). -/
def columnMajorPlan (cfg : AlgoCfg) : List (List Seat) :=
  (List.range cfg.rows).map (fun r => (List.range cfg.cols).map (fun c => seatAt cfg r c))

/-- Seat construction of the row-major (legacy) branch, threading the `roll`
counter that increments only on non-broken seats. -/
def rmFillSeat (cfg : AlgoCfg) (roll : Nat) (r c : Nat) : Seat × Nat :=
  if (r, c) ∈ cfg.broken_seats then
    ({ row := r, col := c, is_broken := true, color := "#FF0000" }, roll)
  else
    let batch := calcBatch cfg r c
    ({ row := r, col := c, batch := some batch,
       paper_set := some (calcPaperSet cfg r c),
       block := some (c / cfg.block_width),
       roll_number := some (pyIntStr roll),
       color := dictGetD cfg.batch_colors batch "#E5E7EB" }, roll + 1)

/-- The `(row, col)` pairs the row-major loop visits strictly before
`(r, c)` (rows outer, columns inner). -/
def rmPosBefore (cfg : AlgoCfg) (r c : Nat) : List (Nat × Nat) :=
  (List.range r).flatMap (fun r2 => (List.range cfg.cols).map (fun c2 => (r2, c2))) ++
    (List.range c).map (fun c2 => (r, c2))

/-- Value of the `roll` counter when the row-major loop reaches `(r, c)`
(it starts at 1). -/
def rmRollBefore (cfg : AlgoCfg) (r c : Nat) : Nat :=
  (rmPosBefore cfg r c).foldl (fun roll q => (rmFillSeat cfg roll q.1 q.2).2) 1

/-- The seat the row-major loop appends for `(r, c)`. -/
def rmSeatAt (cfg : AlgoCfg) (r c : Nat) : Seat :=
  (rmFillSeat cfg (rmRollBefore cfg r c) r c).1

/-- The finished row-major `seating_plan`. -/
def rowMajorPlan (cfg : AlgoCfg) : List (List Seat) :=
  (List.range cfg.rows).map (fun r => (List.range cfg.cols).map (fun c => rmSeatAt cfg r c))

/-- `SeatingAlgorithm.generate_seating`.  The method first resets
`self.seating_plan`; with `batch_by_column` and `num_batches = 0` the very
next statement `self.cols // self.num_batches` raises `ZeroDivisionError`,
modelled as `none` (with the already-reset empty plan left behind).
Otherwise it stores and returns the generated plan. -/
def generate_seating (st : AlgoState) : AlgoState × Option (List (List Seat)) :=
  let cfg := st.cfg
  if cfg.batch_by_column then
    if cfg.num_batches = 0 then
      ({ st with seating_plan := [] }, none)
    else
      let plan := columnMajorPlan cfg
      ({ st with seating_plan := plan }, some plan)
  else
    let plan := rowMajorPlan cfg
    ({ st with seating_plan := plan }, some plan)

/-- `self.seating_plan[r][c]` as accessed by `validate_constraints` (the
out-of-range default is never reached on a `rows × cols` plan). -/
def seatAtD (plan : List (List Seat)) (r c : Nat) : Seat :=
  (plan.getD r []).getD c default

/-- Check 1 of `validate_constraints`: optional same-batch adjacency. -/
def check1 (cfg : AlgoCfg) (plan : List (List Seat)) : List String :=
  if cfg.enforce_no_adjacent_batches then
    (List.range cfg.rows).flatMap (fun r =>
      (List.range cfg.cols).flatMap (fun c =>
        let seat := seatAtD plan r c
        if seat.is_broken then []
        else
          (if c + 1 < cfg.cols then
            let right := seatAtD plan r (c + 1)
            if ¬ right.is_broken ∧ seat.batch = right.batch then
              [s!"Same batch adjacent horizontally at row {r}, cols {c}-{c + 1}"]
            else []
          else []) ++
          (if r + 1 < cfg.rows then
            let down := seatAtD plan (r + 1) c
            if ¬ down.is_broken ∧ seat.batch = down.batch then
              [s!"Same batch adjacent vertically at col {c}, rows {r}-{r + 1}"]
            else []
          else [])))
  else []

/-- Check 2 of `validate_constraints`: paper sets must alternate inside each
block, horizontally and vertically, skipping broken seats. -/
def check2 (cfg : AlgoCfg) (plan : List (List Seat)) : List String :=
  (List.range cfg.blocks).flatMap (fun block =>
    let start_col := block * cfg.block_width
    let end_col := min (start_col + cfg.block_width) cfg.cols
    (List.range cfg.rows).flatMap (fun r =>
      ((List.range (end_col - start_col)).map (fun k => start_col + k)).flatMap (fun c =>
        let seat := seatAtD plan r c
        if seat.is_broken then []
        else
          (if c + 1 < end_col then
            let right := seatAtD plan r (c + 1)
            if ¬ right.is_broken ∧ seat.paper_set = right.paper_set then
              [s!"Same paper set in block {block} horizontally at row {r}, cols {c}-{c + 1}"]
            else []
          else []) ++
          (if r + 1 < cfg.rows then
            let down := seatAtD plan (r + 1) c
            if ¬ down.is_broken ∧ seat.paper_set = down.paper_set then
              [s!"Same paper set vertically at col {c}, rows {r}-{r + 1}"]
            else []
          else []))))

/-- State of the check-3 sweep: the `seen_rolls` set (as an
insertion-ordered duplicate-free list), `assigned_count`, and the duplicate
violations emitted so far. -/
structure Chk3St where
  seen : List String
  assigned : Nat
  dups : List String

/-- Row-major visit order of `validate_constraints`. -/
def rowMajorPositions (cfg : AlgoCfg) : List (Nat × Nat) :=
  (List.range cfg.rows).flatMap (fun r => (List.range cfg.cols).map (fun c => (r, c)))

/-- One seat of the check-3 sweep of `validate_constraints`: skip broken and
identifier-less seats, else record the identifier in the `seen_rolls` set,
bump `assigned_count`, and emit a duplicate violation if it was seen. -/
def check3Step (plan : List (List Seat)) (acc : Chk3St) (q : Nat × Nat) : Chk3St :=
  let seat := seatAtD plan q.1 q.2
  if seat.is_broken then acc
  else
    match seat.roll_number with
    | none => acc
    | some rn =>
      { seen := if rn ∈ acc.seen then acc.seen else acc.seen ++ [rn]
        assigned := acc.assigned + 1
        dups := acc.dups ++
          (if rn ∈ acc.seen then
            [s!"Duplicate roll number {rn} at row {q.1}, col {q.2}"] else []) }

/-- Check 3 sweep of `validate_constraints` over all seats. -/
def check3Fold (cfg : AlgoCfg) (plan : List (List Seat)) : Chk3St :=
  (rowMajorPositions cfg).foldl (check3Step plan) { seen := [], assigned := 0, dups := [] }

/-- The duplicate-roll-number violations of check 3 (emitted during the
sweep, hence first in the check's output). -/
def check3dups (cfg : AlgoCfg) (plan : List (List Seat)) : List String :=
  (check3Fold cfg plan).dups

/-- The count-mismatch violation of check 3 (`expected_total` is
`assigned_count` itself). -/
def check3mismatch (cfg : AlgoCfg) (plan : List (List Seat)) : List String :=
  let st := check3Fold cfg plan
  let expected := st.assigned
  if st.seen.length ≠ expected then
    [s!"Roll numbers count mismatch: expected {expected}, found {st.seen.length}"]
  else []

/-- Check 4 of `validate_constraints`: recomputed block count must match. -/
def check4 (cfg : AlgoCfg) : List String :=
  let calculated := natCeilDiv cfg.cols cfg.block_width
  if calculated ≠ cfg.blocks then
    [s!"Blocks mismatch: expected {cfg.blocks}, calculated {calculated}"]
  else []

/-- `SeatingAlgorithm.validate_constraints`: the four checks in source
order, returning `(no violations, violations)`. -/
def validate_constraints (st : AlgoState) : Bool × List String :=
  let errors := check1 st.cfg st.seating_plan ++ check2 st.cfg st.seating_plan ++
    check3dups st.cfg st.seating_plan ++ check3mismatch st.cfg st.seating_plan ++
    check4 st.cfg
  (errors.isEmpty, errors)

end Algo

/-! ### `Core`: the engine of `algo/core/algorithm/seating.py`

That module is the `SeatingAlgorithm` the API blueprints and the repository
test-suite import; its source file is not available here, so the definitions
below are modelled from the specification (spec §4.1–§4.4, §7). -/

namespace Core

/-- Modelled from the spec: the configuration record of the core engine
(spec §6), restricted to the fields the verified claims exercise.  The
`block_width` default of 2 matches the API layer's default. -/
structure CoreCfg where
  rows : Nat
  cols : Nat
  num_batches : Nat
  block_width : Nat := 2
  block_structure : Option (List Nat) := none
  batch_by_column : Bool := true
  allow_adjacent_same_batch : Bool := false
  broken_seats : List (Nat × Nat) := []
  batch_student_counts : List (Nat × Nat) := []
  start_serial : Nat := 1001
deriving Repr

/-- Modelled from the spec: configuration errors (spec §7, §4.1) —
non-positive dimensions, a batch count of zero, and a `block_structure`
whose sum differs from `cols` — are detected up front and collected into the
`init_errors` list rather than raised. -/
def init_errors (cfg : CoreCfg) : List String :=
  (if cfg.rows = 0 ∨ cfg.cols = 0 then
    ["Configuration error: non-positive grid dimensions"] else []) ++
  (if cfg.num_batches = 0 then
    ["Configuration error: batch count must be positive"] else []) ++
  (match cfg.block_structure with
   | some bs =>
     if bs.sum ≠ cfg.cols then
       ["Configuration error: block_structure does not sum to cols"] else []
   | none => [])

/-- Modelled from the spec: the ordered block widths (spec §4.1) — the
explicit `block_structure` when supplied, else uniform `block_width` blocks
with the final block possibly shorter. -/
def blockWidths (cfg : CoreCfg) : List Nat :=
  match cfg.block_structure with
  | some bs => bs
  | none =>
    let bw := max 1 cfg.block_width
    (List.range ((cfg.cols + bw - 1) / bw)).map (fun i => min bw (cfg.cols - i * bw))

/-- Walks the block widths to resolve a column into
`(block index, offset within block)`. -/
def colBlockGo : List Nat → Nat → Nat → Nat × Nat
  | [], c, i => (i, c)
  | w :: ws, c, i => if c < w then (i, c) else colBlockGo ws (c - w) (i + 1)

/-- Modelled from the spec: the block index of a column (spec §4.1). -/
def colBlock (cfg : CoreCfg) (c : Nat) : Nat :=
  (colBlockGo (blockWidths cfg) c 0).1

/-- Modelled from the spec: a column's zero-based offset within its block
(spec §4.1). -/
def colInBlock (cfg : CoreCfg) (c : Nat) : Nat :=
  (colBlockGo (blockWidths cfg) c 0).2

/-- Modelled from the spec: column-major batch ownership (spec §4.3);
column `c` is owned by batch `(c mod N) + 1`, except that with a single
batch and `allow_adjacent_same_batch` unset every second column within each
block is a gap column owning no batch; a zero batch count degenerates to a
grid with no batch assignments (spec §7). -/
def batchOfCol (cfg : CoreCfg) (c : Nat) : Option Nat :=
  if cfg.num_batches = 0 then none
  else if cfg.num_batches = 1 ∧ ¬ cfg.allow_adjacent_same_batch ∧
      colInBlock cfg c % 2 = 1 then none
  else some (c % cfg.num_batches + 1)

/-- Membership in the supplied broken-seat set. -/
def isBrokenPos (cfg : CoreCfg) (r c : Nat) : Bool :=
  (r, c) ∈ cfg.broken_seats

/-- The row index of the nearest seat strictly above row `r` in column `c`
that is not broken (broken seats are skipped transparently, spec §4.4
tier 1). -/
def nearestAbove (cfg : CoreCfg) (c : Nat) : Nat → Option Nat
  | 0 => none
  | r + 1 => if ¬ isBrokenPos cfg r c then some r else nearestAbove cfg c r

/-- The column index of the nearest batch-carrying, non-broken seat to the
left of column `c` in row `r` (spec §4.4 tier 2; broken seats and batchless
gap columns are skipped transparently, and the scan crosses block
boundaries — spec §8 scenario 1 requires cross-block same-batch
alternation). -/
def nearestLeftStudent (cfg : CoreCfg) (r : Nat) : Nat → Option Nat
  | 0 => none
  | c + 1 =>
    if ¬ isBrokenPos cfg r c ∧ (batchOfCol cfg c).isSome then some c
    else nearestLeftStudent cfg r c

/-- The opposite paper set. -/
def flipPS : PaperSet → PaperSet
  | PaperSet.A => PaperSet.B
  | PaperSet.B => PaperSet.A

/-- Modelled from the spec: the 3-tier paper-set resolver (spec §4.4),
with structural fuel (each tier recurses on a seat strictly earlier in
column-major order, so `r + c` bounds the recursion depth).  Tier 1: the
nearest non-broken seat strictly above, if it carries the same batch, forces
the opposite set; tier 2: likewise for the nearest batch-carrying non-broken
seat to the left; tier 3: checkerboard on `row + offset-within-block`.
Broken seats and gap columns carry no paper set. -/
def paperSetGo (cfg : CoreCfg) : Nat → Nat → Nat → Option PaperSet
  | 0, _, _ => none
  | fuel + 1, r, c =>
    if isBrokenPos cfg r c then none
    else
      match batchOfCol cfg c with
      | none => none
      | some b =>
        let tier3 : Option PaperSet :=
          some (if (r + colInBlock cfg c) % 2 = 0 then PaperSet.A else PaperSet.B)
        let tier2 : Option PaperSet :=
          match nearestLeftStudent cfg r c with
          | some c2 =>
            if batchOfCol cfg c2 = some b then (paperSetGo cfg fuel r c2).map flipPS
            else tier3
          | none => tier3
        match nearestAbove cfg c r with
        | some r2 =>
          if batchOfCol cfg c = some b then (paperSetGo cfg fuel r2 c).map flipPS
          else tier2
        | none => tier2

/-- The paper set of the seat at `(r, c)` (with sufficient fuel). -/
def paperSetAt (cfg : CoreCfg) (r c : Nat) : Option PaperSet :=
  paperSetGo cfg (r + c + 1) r c

/-- Number of non-broken seats in rows `0..r-1` of column `c`. -/
def nonBrokenUpTo (cfg : CoreCfg) (c r : Nat) : Nat :=
  ((List.range r).filter (fun r2 => ¬ isBrokenPos cfg r2 c)).length

/-- Number of non-broken seats in column `c`. -/
def nonBrokenColCount (cfg : CoreCfg) (c : Nat) : Nat :=
  nonBrokenUpTo cfg c cfg.rows

/-- How many seats of batch `b` the column-major fill has allocated before
reaching `(r, c)` (full earlier columns owned by `b`, plus the non-broken
prefix of column `c` itself when `b` owns it). -/
def allocatedBefore (cfg : CoreCfg) (b r c : Nat) : Nat :=
  (((List.range c).filter (fun c2 => batchOfCol cfg c2 = some b)).map
    (fun c2 => nonBrokenColCount cfg c2)).sum +
  (if batchOfCol cfg c = some b then nonBrokenUpTo cfg c r else 0)

/-- Number of columns owned by batch `b`. -/
def batchColsCount (cfg : CoreCfg) (b : Nat) : Nat :=
  ((List.range cfg.cols).filter (fun c => batchOfCol cfg c = some b)).length

/-- Modelled from the spec: a batch's quota — its `batch_student_counts`
cap when supplied, else all seats its columns receive (spec §3, §4.3). -/
def coreLimit (cfg : CoreCfg) (b : Nat) : Nat :=
  dictGetD cfg.batch_student_counts b (batchColsCount cfg b * cfg.rows)

/-- Modelled from the spec: the seat produced for `(r, c)` — broken seats
are marked and carry no batch/paper-set/identifier; gap columns yield empty
seats; otherwise the seat carries its column's batch and its resolved paper
set, with an identifier while the batch's quota lasts and an unallocated
seat afterwards (spec §4.3, §4.2; plain numeric identifiers use independent
per-batch serial counters). -/
def coreSeatAt (cfg : CoreCfg) (r c : Nat) : Seat :=
  if isBrokenPos cfg r c then
    { row := r, col := c, is_broken := true, color := "#FF0000" }
  else
    match batchOfCol cfg c with
    | none => { row := r, col := c }
    | some b =>
      let k := allocatedBefore cfg b r c
      if k < coreLimit cfg b then
        { row := r, col := c, batch := some b, paper_set := paperSetAt cfg r c,
          block := some (colBlock cfg c),
          roll_number := some (pyIntStr (cfg.start_serial + k)),
          color := "#E5E7EB" }
      else
        { row := r, col := c, batch := some b, paper_set := paperSetAt cfg r c,
          block := some (colBlock cfg c), roll_number := none,
          color := "#F3F4F6" }

/-- Modelled from the spec: `generate_seating` of the core engine always
returns a fully-formed `rows × cols` grid — possibly degenerate when
configuration errors were collected — and never raises (spec §7). -/
def generateSeating (cfg : CoreCfg) : List (List Seat) :=
  (List.range cfg.rows).map (fun r => (List.range cfg.cols).map (fun c => coreSeatAt cfg r c))

end Core


/-- A seat counts against batch `b`'s quota when it carries that batch and a
non-null identifier. -/
def allocatedFor (b : Nat) (s : Seat) : Bool :=
  s.batch == some b && s.roll_number.isSome

/-! ### Concrete example configurations used by the example-scenario
theorems and witnesses -/

/-- Example scenario: `rows=4, cols=1, num_batches=1, broken_seats=[(1,0)]`
on the legacy engine. -/
def pC5 : Algo.AlgoParams :=
  { rows := 4, cols := 1, num_batches := 1, broken_seats := [(1, 0)] }

/-- Example scenario 3: `batch_student_counts={1:3, 2:4}` on a 5×4 grid with
2 batches. -/
def pC3 : Algo.AlgoParams :=
  { rows := 5, cols := 4, num_batches := 2, batch_student_counts := [(1, 3), (2, 4)] }

/-- A 1×1 single-batch configuration in `global` serial mode with a bare
serial template. -/
def pC6 : Algo.AlgoParams :=
  { rows := 1, cols := 1, num_batches := 1, serial_mode := "global",
    roll_template := some "{serial}" }

/-- Example scenario 4: `start_rolls={1: "BTCS24O1135"}` on a 2×1 grid. -/
def pC7 : Algo.AlgoParams :=
  { rows := 2, cols := 1, num_batches := 1, start_rolls := [(1, "BTCS24O1135")] }

/-- A start-roll example whose digit run is shorter than the default
`serial_width` of 4. -/
def pC7x : Algo.AlgoParams :=
  { rows := 1, cols := 1, num_batches := 1, start_rolls := [(1, "AB007")] }

/-- Example scenario 2 for the core engine: `rows=4, cols=1, num_batches=1,
broken_seats=[(1,0)]`. -/
def cC1 : Core.CoreCfg :=
  { rows := 4, cols := 1, num_batches := 1, broken_seats := [(1, 0)] }

/-- Example scenario 1 for the core engine: `rows=1, cols=4, block_width=2,
num_batches=1`. -/
def cC2 : Core.CoreCfg :=
  { rows := 1, cols := 4, num_batches := 1, block_width := 2 }

/-- A core configuration with a zero batch count. -/
def cC4 : Core.CoreCfg :=
  { rows := 2, cols := 3, num_batches := 0 }

/-- A hand-built algorithm state whose stored plan contains a duplicated
identifier (as the repository's own test suite builds one by mutating a
generated plan). -/
def stC9 : Algo.AlgoState :=
  { cfg := (Algo.mkAlgo { rows := 1, cols := 2, num_batches := 1 }).cfg
    seating_plan := [[{ row := 0, col := 0, roll_number := some "7" },
                      { row := 0, col := 1, roll_number := some "7" }]] }

/-- A plain-numeric-mode configuration: no template, prefixes, year or
start-roll seeds, so identifiers are bare consecutive integers. -/
def pC10 : Algo.AlgoParams :=
  { rows := 2, cols := 2, num_batches := 1 }

namespace Algo

/-- The identifiers emitted (in order) by running the column-major fill over
a list of positions from a given state. -/
def emitRolls (cfg : AlgoCfg) : FillSt → List (Nat × Nat) → List String
  | _, [] => []
  | st, q :: tl =>
    ((fillSeat cfg st q.1 q.2).1.roll_number).toList ++
      emitRolls cfg (stepSt cfg st q) tl

/-- The identifiers the check-3 sweep actually processes, in sweep order:
per position, nothing for a broken or identifier-less seat. -/
def sweepRolls (plan : List (List Seat)) (l : List (Nat × Nat)) : List String :=
  l.flatMap (fun q =>
    let seat := seatAtD plan q.1 q.2
    if seat.is_broken then [] else seat.roll_number.toList)

/-- All grid positions in column-major fill order. -/
def colMajorAll (cfg : AlgoCfg) : List (Nat × Nat) :=
  posBefore cfg cfg.cols 0

end Algo

/-! ## Theorems -/

/-! ### Decimal rendering: round trip and injectivity -/

theorem decDigitsGo_fuel : ∀ a b n : Nat, n < a → n < b →
    decDigitsGo a n = decDigitsGo b n := by
  intro a
  induction a with
  | zero => intro b n h; omega
  | succ a ih =>
    intro b n h₁ h₂
    cases b with
    | zero => omega
    | succ b =>
      simp only [decDigitsGo]
      by_cases h : n = 0
      · simp [h]
      · have hd : n / 10 < n := Nat.div_lt_self (by omega) (by omega)
        rw [if_neg h, if_neg h, ih b (n / 10) (by omega) (by omega)]

theorem decDigitsGo_spec {f n : Nat} (h : n < f) (hn : n ≠ 0) :
    decDigitsGo f n = decDigitsGo f (n / 10) ++ [n % 10] := by
  cases f with
  | zero => omega
  | succ f =>
    have hd : n / 10 < n := Nat.div_lt_self (by omega) (by omega)
    have h1 : decDigitsGo (f + 1) n = decDigitsGo f (n / 10) ++ [n % 10] := by
      simp only [decDigitsGo, if_neg hn]
    rw [h1, decDigitsGo_fuel f (f + 1) (n / 10) (by omega) (by omega)]

theorem decVal_append_digit (l : List Nat) (d : Nat) :
    decVal (l ++ [d]) = 10 * decVal l + d := by
  simp [decVal, List.foldl_append]

theorem decVal_decDigitsGo {f n : Nat} (h : n < f) :
    decVal (decDigitsGo f n) = n := by
  induction n using Nat.strong_induction_on generalizing f with
  | _ n ih =>
    by_cases hn : n = 0
    · cases f with
      | zero => omega
      | succ f => simp [hn, decDigitsGo, decVal]
    · rw [decDigitsGo_spec h hn, decVal_append_digit]
      have hd : n / 10 < n := Nat.div_lt_self (by omega) (by omega)
      rw [ih (n / 10) hd (by omega)]
      omega

theorem decVal_decDigits (n : Nat) : decVal (decDigits n) = n := by
  unfold decDigits
  by_cases hn : n = 0
  · simp [hn, decVal]
  · rw [if_neg hn]; exact decVal_decDigitsGo (by omega)

theorem decDigits_injective : Function.Injective decDigits := by
  intro a b h
  have := decVal_decDigits a
  rw [h, decVal_decDigits] at this
  omega

theorem decDigitsGo_lt_ten {f n : Nat} : ∀ d ∈ decDigitsGo f n, d < 10 := by
  induction f generalizing n with
  | zero => simp [decDigitsGo]
  | succ f ih =>
    intro d hd
    simp only [decDigitsGo] at hd
    split at hd
    · simp at hd
    · rcases List.mem_append.1 hd with h | h
      · exact ih _ h
      · simp at h; omega

theorem decDigits_lt_ten {n : Nat} : ∀ d ∈ decDigits n, d < 10 := by
  intro d hd
  unfold decDigits at hd
  split at hd
  · simp at hd; omega
  · exact decDigitsGo_lt_ten _ hd

theorem decDigitChar_inj : ∀ d₁ < 10, ∀ d₂ < 10,
    decDigitChar d₁ = decDigitChar d₂ → d₁ = d₂ := by decide

theorem pyIntStr_injective : Function.Injective pyIntStr := by
  intro a b h
  apply decDigits_injective
  have hdata : (decDigits a).map decDigitChar = (decDigits b).map decDigitChar := by
    have h2 := congrArg String.data h
    simpa [pyIntStr] using h2
  have hlen : (decDigits a).length = (decDigits b).length := by
    have := congrArg List.length hdata
    simpa using this
  apply List.ext_getElem hlen
  intro i hi₁ hi₂
  have hm₁ : i < ((decDigits a).map decDigitChar).length := by simpa using hi₁
  have hm₂ : i < ((decDigits b).map decDigitChar).length := by simpa using hi₂
  have hchar : decDigitChar (decDigits a)[i] = decDigitChar (decDigits b)[i] := by
    have h₁ : ((decDigits a).map decDigitChar)[i] =
        decDigitChar (decDigits a)[i] := List.getElem_map _
    have h₂ : ((decDigits b).map decDigitChar)[i] =
        decDigitChar (decDigits b)[i] := List.getElem_map _
    rw [← h₁, ← h₂]
    congr 1
  exact decDigitChar_inj _ (decDigits_lt_ten _ (List.getElem_mem hi₁)) _
    (decDigits_lt_ten _ (List.getElem_mem hi₂)) hchar


/-! ### Generic plan-access lemmas -/

theorem getD_map_range {α : Type} (f : Nat → α) (n r : Nat) (d : α) (h : r < n) :
    (((List.range n).map f).getD r d) = f r := by
  rw [List.getD_eq_getElem?_getD, List.getElem?_map, List.getElem?_range h]
  rfl

namespace Algo

theorem fillSeat_of_broken (cfg : AlgoCfg) (st : FillSt) (r c : Nat)
    (h : (r, c) ∈ cfg.broken_seats) :
    fillSeat cfg st r c = (brokenSeat r c, st) := by
  simp [fillSeat, h, brokenSeat]

theorem fillSeat_not_broken_flag (cfg : AlgoCfg) (st : FillSt) (r c : Nat)
    (h : (r, c) ∉ cfg.broken_seats) :
    (fillSeat cfg st r c).1.is_broken = false := by
  simp only [fillSeat, if_neg h]
  split
  · rfl
  · split
    · rfl
    · split
      · rfl
      · rfl

theorem fillSeat_is_broken_iff (cfg : AlgoCfg) (st : FillSt) (r c : Nat) :
    (fillSeat cfg st r c).1.is_broken = true ↔ (r, c) ∈ cfg.broken_seats := by
  constructor
  · intro h
    by_contra hmem
    rw [fillSeat_not_broken_flag cfg st r c hmem] at h
    exact absurd h (by simp)
  · intro h; rw [fillSeat_of_broken cfg st r c h]; rfl

theorem rmFillSeat_of_broken (cfg : AlgoCfg) (roll : Nat) (r c : Nat)
    (h : (r, c) ∈ cfg.broken_seats) :
    rmFillSeat cfg roll r c = (brokenSeat r c, roll) := by
  simp [rmFillSeat, h, brokenSeat]

theorem rmFillSeat_is_broken_iff (cfg : AlgoCfg) (roll : Nat) (r c : Nat) :
    (rmFillSeat cfg roll r c).1.is_broken = true ↔ (r, c) ∈ cfg.broken_seats := by
  constructor
  · intro h
    by_contra hmem
    simp only [rmFillSeat, if_neg hmem] at h
    exact absurd h (by simp)
  · intro h; rw [rmFillSeat_of_broken cfg roll r c h]; rfl

theorem seatAtD_columnMajorPlan (cfg : AlgoCfg) (r c : Nat)
    (hr : r < cfg.rows) (hc : c < cfg.cols) :
    seatAtD (columnMajorPlan cfg) r c = seatAt cfg r c := by
  unfold seatAtD columnMajorPlan
  rw [getD_map_range _ _ _ _ hr, getD_map_range _ _ _ _ hc]

theorem seatAtD_rowMajorPlan (cfg : AlgoCfg) (r c : Nat)
    (hr : r < cfg.rows) (hc : c < cfg.cols) :
    seatAtD (rowMajorPlan cfg) r c = rmSeatAt cfg r c := by
  unfold seatAtD rowMajorPlan
  rw [getD_map_range _ _ _ _ hr, getD_map_range _ _ _ _ hc]

theorem mem_columnMajorPlan {cfg : AlgoCfg} {row : List Seat} {s : Seat}
    (hrow : row ∈ columnMajorPlan cfg) (hs : s ∈ row) :
    ∃ r c, r < cfg.rows ∧ c < cfg.cols ∧ s = seatAt cfg r c := by
  unfold columnMajorPlan at hrow
  obtain ⟨r, hr, rfl⟩ := List.mem_map.1 hrow
  obtain ⟨c, hc, rfl⟩ := List.mem_map.1 hs
  exact ⟨r, c, List.mem_range.1 hr, List.mem_range.1 hc, rfl⟩

theorem mem_rowMajorPlan {cfg : AlgoCfg} {row : List Seat} {s : Seat}
    (hrow : row ∈ rowMajorPlan cfg) (hs : s ∈ row) :
    ∃ r c, r < cfg.rows ∧ c < cfg.cols ∧ s = rmSeatAt cfg r c := by
  unfold rowMajorPlan at hrow
  obtain ⟨r, hr, rfl⟩ := List.mem_map.1 hrow
  obtain ⟨c, hc, rfl⟩ := List.mem_map.1 hs
  exact ⟨r, c, List.mem_range.1 hr, List.mem_range.1 hc, rfl⟩

/-- `generate_seating` returns either the column-major or the row-major
plan, and fails (models the `ZeroDivisionError`) only with
`batch_by_column` and a zero batch count. -/
theorem generate_seating_cases (st st2 : AlgoState) (plan : List (List Seat))
    (h : generate_seating st = (st2, some plan)) :
    (st.cfg.batch_by_column = true ∧ st.cfg.num_batches ≠ 0 ∧
      plan = columnMajorPlan st.cfg) ∨
    (st.cfg.batch_by_column = false ∧ plan = rowMajorPlan st.cfg) := by
  unfold generate_seating at h
  by_cases h1 : st.cfg.batch_by_column
  · by_cases h2 : st.cfg.num_batches = 0
    · simp [h1, h2] at h
    · left
      simp only [h1, if_true, h2, if_false] at h
      have h3 := congrArg Prod.snd h
      simp only [Option.some.injEq] at h3
      exact ⟨h1, h2, h3.symm⟩
  · right
    simp only [if_neg h1] at h
    have h3 := congrArg Prod.snd h
    simp only [Option.some.injEq] at h3
    exact ⟨by simpa using h1, h3.symm⟩

end Algo

/-- C8: `generate_seating` is deterministic and idempotent: the generation
reads only the configuration attributes (which it never mutates — it only
overwrites `seating_plan`), so a second call on the very instance a first
call left behind returns the identical grid — every `batch`, `paper_set`,
`block`, `roll_number`, `is_broken` flag and `color` included — and the
identical state; runs on equal configurations coincide because the plan is
a function of the configuration alone. -/
theorem C8_generate_seating_deterministic (st : Algo.AlgoState) :
    (Algo.generate_seating (Algo.generate_seating st).1).2 =
      (Algo.generate_seating st).2 ∧
    (Algo.generate_seating (Algo.generate_seating st).1).1 =
      (Algo.generate_seating st).1 ∧
    (Algo.generate_seating st).1.cfg = st.cfg := by
  unfold Algo.generate_seating
  by_cases h1 : st.cfg.batch_by_column <;> by_cases h2 : st.cfg.num_batches = 0 <;>
    simp [h1, h2]

/-- C5: every supplied broken-seat coordinate that lies inside the grid
yields — under both placement strategies — a seat with `is_broken = true`
and null `batch`, `paper_set` and `roll_number`; and every seat of every
generated grid satisfies `is_broken = true → batch, paper_set, roll_number
all null`. -/
theorem C5_broken_seats_all_null (p : Algo.AlgoParams) (plan : List (List Seat))
    (hgen : (Algo.generate_seating (Algo.mkAlgo p)).2 = some plan) :
    (∀ r c, (r, c) ∈ p.broken_seats → r < p.rows → c < p.cols →
      (Algo.seatAtD plan r c).is_broken = true ∧
      (Algo.seatAtD plan r c).batch = none ∧
      (Algo.seatAtD plan r c).paper_set = none ∧
      (Algo.seatAtD plan r c).roll_number = none) ∧
    (∀ row ∈ plan, ∀ s ∈ row, s.is_broken = true →
      s.batch = none ∧ s.paper_set = none ∧ s.roll_number = none) := by
  have hpair : Algo.generate_seating (Algo.mkAlgo p) =
      ((Algo.generate_seating (Algo.mkAlgo p)).1, some plan) := by
    rw [← hgen]
  have hcfg_b : (Algo.mkAlgo p).cfg.broken_seats = p.broken_seats := rfl
  have hcfg_r : (Algo.mkAlgo p).cfg.rows = p.rows := rfl
  have hcfg_c : (Algo.mkAlgo p).cfg.cols = p.cols := rfl
  rcases Algo.generate_seating_cases _ _ _ hpair with ⟨_, _, hplan⟩ | ⟨_, hplan⟩
  · subst hplan
    constructor
    · intro r c hmem hr hc
      rw [Algo.seatAtD_columnMajorPlan _ _ _ (hcfg_r ▸ hr) (hcfg_c ▸ hc)]
      unfold Algo.seatAt
      rw [Algo.fillSeat_of_broken _ _ _ _ (hcfg_b ▸ hmem)]
      exact ⟨rfl, rfl, rfl, rfl⟩
    · intro row hrow s hs hbr
      obtain ⟨r, c, hr, hc, rfl⟩ := Algo.mem_columnMajorPlan hrow hs
      have hmem := (Algo.fillSeat_is_broken_iff _ _ _ _).1 hbr
      unfold Algo.seatAt
      rw [Algo.fillSeat_of_broken _ _ _ _ hmem]
      exact ⟨rfl, rfl, rfl⟩
  · subst hplan
    constructor
    · intro r c hmem hr hc
      rw [Algo.seatAtD_rowMajorPlan _ _ _ (hcfg_r ▸ hr) (hcfg_c ▸ hc)]
      unfold Algo.rmSeatAt
      rw [Algo.rmFillSeat_of_broken _ _ _ _ (hcfg_b ▸ hmem)]
      exact ⟨rfl, rfl, rfl, rfl⟩
    · intro row hrow s hs hbr
      obtain ⟨r, c, hr, hc, rfl⟩ := Algo.mem_rowMajorPlan hrow hs
      have hmem := (Algo.rmFillSeat_is_broken_iff _ _ _ _).1 hbr
      unfold Algo.rmSeatAt
      rw [Algo.rmFillSeat_of_broken _ _ _ _ hmem]
      exact ⟨rfl, rfl, rfl⟩

/-- Witness for C5 at `rows=4, cols=1, num_batches=1, broken_seats=[(1,0)]`:
the broken seat (1,0) comes out marked broken with all-null allocation
fields. -/
theorem C5_broken_seats_all_null_witness :
    (Algo.seatAtD (Algo.columnMajorPlan (Algo.mkAlgo pC5).cfg) 1 0).is_broken = true ∧
    (Algo.seatAtD (Algo.columnMajorPlan (Algo.mkAlgo pC5).cfg) 1 0).batch = none := by
  have h := C5_broken_seats_all_null pC5 _ rfl
  have h2 := h.1 1 0 (by decide) (by decide) (by decide)
  exact ⟨h2.1, h2.2.1⟩

/-! ### Column-major fill: state-evolution lemmas -/

namespace Algo

theorem stateBefore_zero (cfg : AlgoCfg) : stateBefore cfg 0 0 = initFillSt cfg := rfl

theorem posBefore_succ_row (cfg : AlgoCfg) (c r : Nat) :
    posBefore cfg c (r + 1) = posBefore cfg c r ++ [(r, c)] := by
  unfold posBefore
  rw [List.range_succ, List.map_append, List.append_assoc]
  rfl

theorem posBefore_succ_col (cfg : AlgoCfg) (c : Nat) :
    posBefore cfg (c + 1) 0 = posBefore cfg c cfg.rows := by
  unfold posBefore
  rw [List.range_succ, List.flatMap_append]
  simp

theorem stateBefore_succ_row (cfg : AlgoCfg) (c r : Nat) :
    stateBefore cfg c (r + 1) = stepSt cfg (stateBefore cfg c r) (r, c) := by
  unfold stateBefore
  rw [posBefore_succ_row, List.foldl_append]
  rfl

theorem stateBefore_succ_col (cfg : AlgoCfg) (c : Nat) :
    stateBefore cfg (c + 1) 0 = stateBefore cfg c cfg.rows := by
  unfold stateBefore
  rw [posBefore_succ_col]

/-- One fill step adds to `batch_allocated[b]` exactly the indicator of the
seat it emits counting against batch `b`. -/
theorem stepSt_alloc (cfg : AlgoCfg) (st : FillSt) (r c b : Nat) :
    (stepSt cfg st (r, c)).alloc b =
      st.alloc b + (allocatedFor b (fillSeat cfg st r c).1).toNat := by
  unfold stepSt fillSeat
  by_cases hbr : (r, c) ∈ cfg.broken_seats
  · simp [hbr, allocatedFor]
  · simp only [if_neg hbr]
    by_cases hlim : batchLimit cfg (c % cfg.num_batches + 1) ≤
        st.alloc (c % cfg.num_batches + 1)
    · simp [hlim, allocatedFor]
    · simp only [if_neg hlim]
      by_cases hglob : pyTruthyStr (batchTemplate cfg (c % cfg.num_batches + 1)) = true ∧
          cfg.serial_mode = "global"
      · simp only [hglob, and_self, if_true]
        by_cases hb : b = c % cfg.num_batches + 1
        · subst hb; simp [allocatedFor, Function.update_apply]
        · simp [allocatedFor, Function.update_apply, hb, Ne.symm hb]
      · simp only [if_neg hglob]
        cases hq : st.queues (c % cfg.num_batches + 1) with
        | nil => simp [allocatedFor]
        | cons rn rest =>
          by_cases hb : b = c % cfg.num_batches + 1
          · subst hb; simp [allocatedFor, Function.update_apply]
          · simp [allocatedFor, Function.update_apply, hb, Ne.symm hb]

/-- One fill step never pushes `batch_allocated[b]` past `batch_limits[b]`. -/
theorem stepSt_alloc_le (cfg : AlgoCfg) (st : FillSt) (q : Nat × Nat) (b : Nat)
    (h : st.alloc b ≤ batchLimit cfg b) :
    (stepSt cfg st q).alloc b ≤ batchLimit cfg b := by
  obtain ⟨r, c⟩ := q
  unfold stepSt fillSeat
  by_cases hbr : (r, c) ∈ cfg.broken_seats
  · simpa [hbr] using h
  · simp only [if_neg hbr]
    by_cases hlim : batchLimit cfg (c % cfg.num_batches + 1) ≤
        st.alloc (c % cfg.num_batches + 1)
    · simpa [hlim] using h
    · simp only [if_neg hlim]
      by_cases hglob : pyTruthyStr (batchTemplate cfg (c % cfg.num_batches + 1)) = true ∧
          cfg.serial_mode = "global"
      · simp only [hglob, and_self, if_true]
        by_cases hb : b = c % cfg.num_batches + 1
        · subst hb; simp only [Function.update_apply, if_pos]
          omega
        · simpa [Function.update_apply, hb] using h
      · simp only [if_neg hglob]
        cases hq : st.queues (c % cfg.num_batches + 1) with
        | nil => simpa using h
        | cons rn rest =>
          by_cases hb : b = c % cfg.num_batches + 1
          · subst hb; simp only [Function.update_apply, if_pos]
            omega
          · simpa [Function.update_apply, hb] using h

theorem foldl_stepSt_alloc_le (cfg : AlgoCfg) (b : Nat) (l : List (Nat × Nat))
    (st : FillSt) (h : st.alloc b ≤ batchLimit cfg b) :
    (l.foldl (stepSt cfg) st).alloc b ≤ batchLimit cfg b := by
  induction l generalizing st with
  | nil => exact h
  | cons q tl ih => exact ih _ (stepSt_alloc_le cfg st q b h)

theorem stateBefore_alloc_le (cfg : AlgoCfg) (b c r : Nat) :
    (stateBefore cfg c r).alloc b ≤ batchLimit cfg b := by
  exact foldl_stepSt_alloc_le cfg b _ _ (by simp [initFillSt])

/-- `batch_allocated[b]` at any point of the fill equals the number of
already-emitted seats counting against batch `b`. -/
theorem stateBefore_alloc_count (cfg : AlgoCfg) (b : Nat) : ∀ c r,
    (stateBefore cfg c r).alloc b =
      (∑ c2 ∈ Finset.range c, ∑ r2 ∈ Finset.range cfg.rows,
        (allocatedFor b (seatAt cfg r2 c2)).toNat) +
      ∑ r2 ∈ Finset.range r, (allocatedFor b (seatAt cfg r2 c)).toNat := by
  intro c
  induction c with
  | zero =>
    intro r
    induction r with
    | zero => simp [stateBefore_zero, initFillSt]
    | succ r ihr =>
      rw [stateBefore_succ_row, stepSt_alloc, ihr,
        Finset.sum_range_succ (fun r2 => (allocatedFor b (seatAt cfg r2 0)).toNat) r]
      simp only [seatAt]
      omega
  | succ c ihc =>
    intro r
    induction r with
    | zero =>
      rw [stateBefore_succ_col, ihc cfg.rows,
        Finset.sum_range_succ
          (fun c2 => ∑ r2 ∈ Finset.range cfg.rows, (allocatedFor b (seatAt cfg r2 c2)).toNat) c]
      simp
    | succ r ihr =>
      rw [stateBefore_succ_row, stepSt_alloc, ihr,
        Finset.sum_range_succ (fun r2 => (allocatedFor b (seatAt cfg r2 (c + 1))).toNat) r]
      simp only [seatAt]
      omega

end Algo

theorem dictGetD_of_get {α : Type} {l : List (Nat × α)} {k : Nat} {v : α} (d : α)
    (h : dictGet l k = some v) : dictGetD l k d = v := by
  have : dictGetD l k d = (dictGet l k).getD d := rfl
  rw [this, h]
  rfl

theorem dictHas_of_get {α : Type} {l : List (Nat × α)} {k : Nat} {v : α}
    (h : dictGet l k = some v) : dictHas l k = true := by
  have : dictHas l k = (dictGet l k).isSome := rfl
  rw [this, h]
  rfl

theorem dictGet_ne_nil {α : Type} {l : List (Nat × α)} {k : Nat} {v : α}
    (h : dictGet l k = some v) : l ≠ [] := by
  rintro rfl
  simp [dictGet] at h

theorem countP_map_range {α : Type} (p : α → Bool) (f : Nat → α) (n : Nat) :
    List.countP p ((List.range n).map f) = ∑ i ∈ Finset.range n, (p (f i)).toNat := by
  induction n with
  | zero => simp
  | succ n ih =>
    rw [List.range_succ, List.map_append, List.countP_append, ih, Finset.sum_range_succ]
    simp [List.countP_cons]
    cases p (f n) <;> simp

theorem sum_map_range (f : Nat → Nat) (n : Nat) :
    ((List.range n).map f).sum = ∑ i ∈ Finset.range n, f i := by
  induction n with
  | zero => simp
  | succ n ih => simp [List.range_succ, Finset.sum_range_succ, ih]

namespace Algo

/-- The number of seats of the column-major plan counting against batch `b`,
as a double sum over the grid. -/
theorem columnMajorPlan_count (cfg : AlgoCfg) (b : Nat) :
    ((columnMajorPlan cfg).map (List.countP (allocatedFor b))).sum =
      ∑ r ∈ Finset.range cfg.rows, ∑ c ∈ Finset.range cfg.cols,
        (allocatedFor b (seatAt cfg r c)).toNat := by
  unfold columnMajorPlan
  rw [List.map_map]
  have hcomp : (List.countP (allocatedFor b) ∘ fun r => (List.range cfg.cols).map
      (fun c => seatAt cfg r c)) = fun r => List.countP (allocatedFor b)
      ((List.range cfg.cols).map (fun c => seatAt cfg r c)) := rfl
  rw [hcomp, sum_map_range (fun r => List.countP (allocatedFor b)
    ((List.range cfg.cols).map (fun c => seatAt cfg r c))) cfg.rows]
  exact Finset.sum_congr rfl (fun r _ => countP_map_range _ _ _)

end Algo

/-- C3: in column-major placement, a batch never receives more identifiers
than its `batch_student_counts` cap: for every batch `b` with a supplied cap,
the number of seats of the generated grid carrying `batch = b` and a
non-null `roll_number` is at most that cap. -/
theorem C3_batch_caps (p : Algo.AlgoParams) (plan : List (List Seat)) (b cap : Nat)
    (hgen : (Algo.generate_seating (Algo.mkAlgo p)).2 = some plan)
    (hbc : p.batch_by_column = true)
    (hcap : dictGet p.batch_student_counts b = some cap) :
    (plan.map (List.countP (allocatedFor b))).sum ≤ cap := by
  have hpair : Algo.generate_seating (Algo.mkAlgo p) =
      ((Algo.generate_seating (Algo.mkAlgo p)).1, some plan) := by rw [← hgen]
  rcases Algo.generate_seating_cases _ _ _ hpair with ⟨_, _, hplan⟩ | ⟨hbc2, _⟩
  · subst hplan
    have hcfgc : (Algo.mkAlgo p).cfg.batch_student_counts = p.batch_student_counts := rfl
    have hlimit : Algo.batchLimit (Algo.mkAlgo p).cfg b = cap := by
      unfold Algo.batchLimit
      rw [hcfgc, if_pos ⟨dictGet_ne_nil hcap, dictHas_of_get hcap⟩]
      exact dictGetD_of_get 0 hcap
    calc ((Algo.columnMajorPlan (Algo.mkAlgo p).cfg).map
        (List.countP (allocatedFor b))).sum
        = ∑ r ∈ Finset.range (Algo.mkAlgo p).cfg.rows,
            ∑ c ∈ Finset.range (Algo.mkAlgo p).cfg.cols,
            (allocatedFor b (Algo.seatAt (Algo.mkAlgo p).cfg r c)).toNat :=
          Algo.columnMajorPlan_count _ b
      _ = ∑ c ∈ Finset.range (Algo.mkAlgo p).cfg.cols,
            ∑ r ∈ Finset.range (Algo.mkAlgo p).cfg.rows,
            (allocatedFor b (Algo.seatAt (Algo.mkAlgo p).cfg r c)).toNat :=
          Finset.sum_comm
      _ = (Algo.stateBefore (Algo.mkAlgo p).cfg (Algo.mkAlgo p).cfg.cols 0).alloc b := by
          rw [Algo.stateBefore_alloc_count (Algo.mkAlgo p).cfg b (Algo.mkAlgo p).cfg.cols 0]
          simp
      _ ≤ Algo.batchLimit (Algo.mkAlgo p).cfg b := Algo.stateBefore_alloc_le _ _ _ _
      _ = cap := hlimit
  · rw [show (Algo.mkAlgo p).cfg.batch_by_column = p.batch_by_column from rfl, hbc] at hbc2
    cases hbc2

/-- Witness for C3 at example scenario 3 (`batch_student_counts={1:3, 2:4}`,
5 rows × 4 cols, 2 batches): at most 3 seats carry batch 1 with an
identifier, at most 4 carry batch 2. -/
theorem C3_batch_caps_witness :
    ((Algo.columnMajorPlan (Algo.mkAlgo pC3).cfg).map
      (List.countP (allocatedFor 1))).sum ≤ 3 ∧
    ((Algo.columnMajorPlan (Algo.mkAlgo pC3).cfg).map
      (List.countP (allocatedFor 2))).sum ≤ 4 :=
  ⟨C3_batch_caps pC3 _ 1 3 rfl rfl rfl, C3_batch_caps pC3 _ 2 4 rfl rfl rfl⟩

namespace Algo

/-- A seat of a non-broken position comes out without an identifier exactly
when its batch is exhausted — quota reached or (outside on-the-fly `global`
generation) queue empty. -/
theorem fillSeat_roll_none_iff (cfg : AlgoCfg) (st : FillSt) (r c : Nat)
    (hbr : (r, c) ∉ cfg.broken_seats)
    (hmode : ¬(pyTruthyStr (batchTemplate cfg (c % cfg.num_batches + 1)) = true ∧
      cfg.serial_mode = "global")) :
    ((fillSeat cfg st r c).1.roll_number = none ↔
      (batchLimit cfg (c % cfg.num_batches + 1) ≤ st.alloc (c % cfg.num_batches + 1) ∨
        st.queues (c % cfg.num_batches + 1) = [])) := by
  unfold fillSeat
  simp only [if_neg hbr]
  by_cases hlim : batchLimit cfg (c % cfg.num_batches + 1) ≤
      st.alloc (c % cfg.num_batches + 1)
  · simp [hlim]
  · simp only [if_neg hlim, if_neg hmode]
    cases hq : st.queues (c % cfg.num_batches + 1) with
    | nil => simp [hlim, hq]
    | cons rn rest => simp [hlim, hq]

/-- `batch_allocated[b]` never decreases along a fill step. -/
theorem stepSt_alloc_mono (cfg : AlgoCfg) (st : FillSt) (q : Nat × Nat) (b : Nat) :
    st.alloc b ≤ (stepSt cfg st q).alloc b := by
  obtain ⟨r, c⟩ := q
  rw [stepSt_alloc]
  omega

/-- An emptied queue stays empty along a fill step. -/
theorem stepSt_queues_nil (cfg : AlgoCfg) (st : FillSt) (q : Nat × Nat) (b : Nat)
    (h : st.queues b = []) : (stepSt cfg st q).queues b = [] := by
  obtain ⟨r, c⟩ := q
  unfold stepSt fillSeat
  by_cases hbr : (r, c) ∈ cfg.broken_seats
  · simpa [hbr] using h
  · simp only [if_neg hbr]
    by_cases hlim : batchLimit cfg (c % cfg.num_batches + 1) ≤
        st.alloc (c % cfg.num_batches + 1)
    · simpa [hlim] using h
    · simp only [if_neg hlim]
      by_cases hglob : pyTruthyStr (batchTemplate cfg (c % cfg.num_batches + 1)) = true ∧
          cfg.serial_mode = "global"
      · simpa [hglob] using h
      · simp only [if_neg hglob]
        cases hq : st.queues (c % cfg.num_batches + 1) with
        | nil => simpa using h
        | cons rn rest =>
          by_cases hb : b = c % cfg.num_batches + 1
          · subst hb; rw [hq] at h; cases h
          · simpa [Function.update_apply, hb] using h

/-- Batch exhaustion (quota reached or queue empty) persists along the
fill. -/
theorem stepSt_dead_mono (cfg : AlgoCfg) (st : FillSt) (q : Nat × Nat) (b : Nat)
    (h : batchLimit cfg b ≤ st.alloc b ∨ st.queues b = []) :
    batchLimit cfg b ≤ (stepSt cfg st q).alloc b ∨ (stepSt cfg st q).queues b = [] := by
  rcases h with h | h
  · exact Or.inl (le_trans h (stepSt_alloc_mono cfg st q b))
  · exact Or.inr (stepSt_queues_nil cfg st q b h)

theorem foldl_dead_mono (cfg : AlgoCfg) (b : Nat) (l : List (Nat × Nat)) (st : FillSt)
    (h : batchLimit cfg b ≤ st.alloc b ∨ st.queues b = []) :
    batchLimit cfg b ≤ (l.foldl (stepSt cfg) st).alloc b ∨
      (l.foldl (stepSt cfg) st).queues b = [] := by
  induction l generalizing st with
  | nil => exact h
  | cons q tl ih => exact ih _ (stepSt_dead_mono cfg st q b h)

theorem posBefore_row_le (cfg : AlgoCfg) (c : Nat) : ∀ r1 r2, r1 ≤ r2 →
    ∃ l, posBefore cfg c r2 = posBefore cfg c r1 ++ l := by
  intro r1 r2
  induction r2 with
  | zero =>
    intro h
    exact ⟨[], by simp [Nat.le_zero.1 h]⟩
  | succ r2 ih =>
    intro h
    rcases Nat.lt_or_ge r1 (r2 + 1) with hlt | hge
    · obtain ⟨l, hl⟩ := ih (by omega)
      exact ⟨l ++ [(r2, c)], by rw [posBefore_succ_row, hl, List.append_assoc]⟩
    · have : r1 = r2 + 1 := by omega
      exact ⟨[], by simp [this]⟩

theorem posBefore_col_le (cfg : AlgoCfg) : ∀ c1 c2, c1 ≤ c2 →
    ∃ l, posBefore cfg c2 0 = posBefore cfg c1 0 ++ l := by
  intro c1 c2
  induction c2 with
  | zero =>
    intro h
    exact ⟨[], by simp [Nat.le_zero.1 h]⟩
  | succ c2 ih =>
    intro h
    rcases Nat.lt_or_ge c1 (c2 + 1) with hlt | hge
    · obtain ⟨l, hl⟩ := ih (by omega)
      obtain ⟨l2, hl2⟩ := posBefore_row_le cfg c2 0 cfg.rows (Nat.zero_le _)
      exact ⟨l ++ l2, by rw [posBefore_succ_col, hl2, hl, List.append_assoc]⟩
    · have : c1 = c2 + 1 := by omega
      exact ⟨[], by simp [this]⟩

/-- The positions processed before `(r1, c1)` (inclusive) form a prefix of
those processed before any later position of the column-major walk. -/
theorem posBefore_prefix (cfg : AlgoCfg) (c1 r1 c2 r2 : Nat)
    (hr1 : r1 < cfg.rows)
    (h : c1 < c2 ∨ (c1 = c2 ∧ r1 < r2)) :
    ∃ l, posBefore cfg c2 r2 = posBefore cfg c1 (r1 + 1) ++ l := by
  rcases h with hlt | ⟨rfl, hr⟩
  · obtain ⟨l1, hl1⟩ := posBefore_row_le cfg c1 (r1 + 1) cfg.rows hr1
    obtain ⟨l2, hl2⟩ := posBefore_col_le cfg (c1 + 1) c2 hlt
    obtain ⟨l3, hl3⟩ := posBefore_row_le cfg c2 0 r2 (Nat.zero_le _)
    refine ⟨l1 ++ l2 ++ l3, ?_⟩
    rw [hl3, hl2, posBefore_succ_col, hl1]
    simp [List.append_assoc]
  · exact posBefore_row_le cfg c1 (r1 + 1) r2 hr

end Algo

namespace Algo

/-- Every non-broken seat of the column-major fill carries its column's
batch. -/
theorem fillSeat_batch_of_not_broken (cfg : AlgoCfg) (st : FillSt) (r c : Nat)
    (hbr : (r, c) ∉ cfg.broken_seats) :
    (fillSeat cfg st r c).1.batch = some (c % cfg.num_batches + 1) := by
  unfold fillSeat
  simp only [if_neg hbr]
  split
  · rfl
  · split
    · rfl
    · split
      · rfl
      · rfl

end Algo

/-- C6 (amended): identifier exhaustion never raises — column-major
generation always returns a complete `rows × cols` grid — and once a batch's
quota is reached, or (when its identifiers are drawn from its pre-generated
queue, i.e. not generated on the fly in `global` mode) its queue is empty,
every further non-broken seat in that batch's columns is produced as an
unallocated seat: batch set, `roll_number` null. -/
theorem C6_exhaustion_unallocated (p : Algo.AlgoParams) (plan : List (List Seat))
    (hgen : (Algo.generate_seating (Algo.mkAlgo p)).2 = some plan)
    (hbc : p.batch_by_column = true) :
    (plan.length = p.rows ∧ ∀ row ∈ plan, row.length = p.cols) ∧
    (∀ r1 c1 r2 c2, r1 < p.rows → c1 < p.cols → r2 < p.rows → c2 < p.cols →
      c1 % p.num_batches = c2 % p.num_batches →
      (c1 < c2 ∨ (c1 = c2 ∧ r1 ≤ r2)) →
      (r1, c1) ∉ p.broken_seats → (r2, c2) ∉ p.broken_seats →
      ¬(pyTruthyStr (Algo.batchTemplate (Algo.mkAlgo p).cfg
          (c1 % p.num_batches + 1)) = true ∧ p.serial_mode = "global") →
      (Algo.seatAtD plan r1 c1).roll_number = none →
      (Algo.seatAtD plan r2 c2).batch = some (c2 % p.num_batches + 1) ∧
        (Algo.seatAtD plan r2 c2).roll_number = none) := by
  have hpair : Algo.generate_seating (Algo.mkAlgo p) =
      ((Algo.generate_seating (Algo.mkAlgo p)).1, some plan) := by rw [← hgen]
  rcases Algo.generate_seating_cases _ _ _ hpair with ⟨_, _, hplan⟩ | ⟨hbc2, _⟩
  swap
  · rw [show (Algo.mkAlgo p).cfg.batch_by_column = p.batch_by_column from rfl, hbc] at hbc2
    cases hbc2
  subst hplan
  set cfg := (Algo.mkAlgo p).cfg with hcfg
  have hrows : cfg.rows = p.rows := rfl
  have hcols : cfg.cols = p.cols := rfl
  have hnb : cfg.num_batches = p.num_batches := rfl
  have hbrk : cfg.broken_seats = p.broken_seats := rfl
  have hmd : cfg.serial_mode = p.serial_mode := rfl
  constructor
  · constructor
    · simp [Algo.columnMajorPlan, hrows]
    · intro row hrow
      unfold Algo.columnMajorPlan at hrow
      obtain ⟨r, _, rfl⟩ := List.mem_map.1 hrow
      simp [hcols]
  · intro r1 c1 r2 c2 hr1 hc1 hr2 hc2 hbmod horder hnb1 hnb2 hmode hroll1
    rw [Algo.seatAtD_columnMajorPlan cfg r1 c1 (hrows ▸ hr1) (hcols ▸ hc1)] at hroll1
    rw [Algo.seatAtD_columnMajorPlan cfg r2 c2 (hrows ▸ hr2) (hcols ▸ hc2)]
    have hmode2 : ¬(pyTruthyStr (Algo.batchTemplate cfg (c2 % cfg.num_batches + 1)) = true ∧
        cfg.serial_mode = "global") := by
      rw [hnb, ← hbmod, hmd]
      exact hmode
    have hmode1 : ¬(pyTruthyStr (Algo.batchTemplate cfg (c1 % cfg.num_batches + 1)) = true ∧
        cfg.serial_mode = "global") := by
      rw [hnb, hmd]
      exact hmode
    -- exhaustion holds at the fill state of (r1, c1)
    unfold Algo.seatAt at hroll1
    have hdead1 := (Algo.fillSeat_roll_none_iff cfg (Algo.stateBefore cfg c1 r1) r1 c1
      (hbrk ▸ hnb1) hmode1).1 hroll1
    -- it persists to the fill state of (r2, c2)
    have hdead2 : Algo.batchLimit cfg (c2 % cfg.num_batches + 1) ≤
        (Algo.stateBefore cfg c2 r2).alloc (c2 % cfg.num_batches + 1) ∨
        (Algo.stateBefore cfg c2 r2).queues (c2 % cfg.num_batches + 1) = [] := by
      have hbeq : c1 % cfg.num_batches + 1 = c2 % cfg.num_batches + 1 := by
        rw [hnb, hbmod]
      rcases horder with hlt | ⟨rfl, hle⟩
      · obtain ⟨l, hl⟩ := Algo.posBefore_prefix cfg c1 r1 c2 r2 (hrows ▸ hr1) (Or.inl hlt)
        have : Algo.stateBefore cfg c2 r2 =
            l.foldl (Algo.stepSt cfg) (Algo.stateBefore cfg c1 (r1 + 1)) := by
          unfold Algo.stateBefore
          rw [hl, List.foldl_append]
        rw [this]
        refine Algo.foldl_dead_mono cfg _ l _ ?_
        rw [Algo.stateBefore_succ_row, ← hbeq]
        exact Algo.stepSt_dead_mono cfg _ _ _ hdead1
      · rcases Nat.eq_or_lt_of_le hle with rfl | hlt
        · exact hbeq ▸ hdead1
        · obtain ⟨l, hl⟩ := Algo.posBefore_prefix cfg c1 r1 c1 r2 (hrows ▸ hr1)
            (Or.inr ⟨rfl, hlt⟩)
          have : Algo.stateBefore cfg c1 r2 =
              l.foldl (Algo.stepSt cfg) (Algo.stateBefore cfg c1 (r1 + 1)) := by
            unfold Algo.stateBefore
            rw [hl, List.foldl_append]
          rw [this]
          refine Algo.foldl_dead_mono cfg _ l _ ?_
          rw [Algo.stateBefore_succ_row]
          exact Algo.stepSt_dead_mono cfg _ _ _ hdead1
    unfold Algo.seatAt
    have hroll2 := (Algo.fillSeat_roll_none_iff cfg (Algo.stateBefore cfg c2 r2) r2 c2
      (hbrk ▸ hnb2) hmode2).2 hdead2
    refine ⟨?_, hroll2⟩
    rw [Algo.fillSeat_batch_of_not_broken cfg _ r2 c2 (hbrk ▸ hnb2), hnb]

/-- Counterexample to C6 as stated: with `serial_mode='global'` and a truthy
template, a batch's identifier queue is empty from the start, yet the
engine still assigns identifiers (generated on the fly) instead of
producing unallocated seats. -/
theorem C6_global_queue_counterexample :
    (Algo.stateBefore (Algo.mkAlgo pC6).cfg 0 0).queues 1 = [] ∧
    (0, 0) ∉ (Algo.mkAlgo pC6).cfg.broken_seats ∧
    (Algo.seatAt (Algo.mkAlgo pC6).cfg 0 0).batch = some 1 ∧
    (Algo.seatAt (Algo.mkAlgo pC6).cfg 0 0).roll_number = some "1001" := by
  refine ⟨?_, ?_, ?_, ?_⟩ <;> decide

/-- Witness for the amended C6 at example scenario 3: batch 1's quota (3) is
exhausted at seat (3,0), and the later seat (4,0) of the same column is
unallocated. -/
theorem C6_exhaustion_unallocated_witness :
    (Algo.seatAtD (Algo.columnMajorPlan (Algo.mkAlgo pC3).cfg) 3 0).roll_number = none ∧
    (Algo.seatAtD (Algo.columnMajorPlan (Algo.mkAlgo pC3).cfg) 4 0).batch = some 1 ∧
    (Algo.seatAtD (Algo.columnMajorPlan (Algo.mkAlgo pC3).cfg) 4 0).roll_number = none := by
  have h := (C6_exhaustion_unallocated pC3 _ rfl rfl).2 3 0 4 0
    (by decide) (by decide) (by decide) (by decide) (by decide)
    (Or.inr ⟨rfl, by decide⟩) (by decide) (by decide) (by decide) (by decide)
  exact ⟨by decide, h.1, h.2⟩

namespace Algo

/-- The check-3 sweep keeps `|seen_rolls| ≤ assigned_count`, with equality
exactly while no duplicate violation has been emitted. -/
theorem check3_invariant (plan : List (List Seat)) :
    ∀ (l : List (Nat × Nat)) (acc : Chk3St),
      acc.seen.length ≤ acc.assigned →
      (acc.seen.length = acc.assigned ↔ acc.dups = []) →
      (l.foldl (check3Step plan) acc).seen.length ≤
        (l.foldl (check3Step plan) acc).assigned ∧
      ((l.foldl (check3Step plan) acc).seen.length =
          (l.foldl (check3Step plan) acc).assigned ↔
        (l.foldl (check3Step plan) acc).dups = []) := by
  intro l
  induction l with
  | nil => intro acc h1 h2; exact ⟨h1, h2⟩
  | cons q tl ih =>
    intro acc h1 h2
    simp only [List.foldl_cons]
    unfold check3Step
    by_cases hbr : (seatAtD plan q.1 q.2).is_broken
    · simp only [hbr, if_true]
      exact ih acc h1 h2
    · simp only [hbr, if_false]
      cases hrn : (seatAtD plan q.1 q.2).roll_number with
      | none => exact ih acc h1 h2
      | some rn =>
        by_cases hmem : rn ∈ acc.seen
        · refine ih _ ?_ ?_
          · simp [hmem]
            exact Nat.le_succ_of_le h1
          · simp [hmem]
            exact fun h => absurd h (Nat.ne_of_lt (Nat.lt_succ_of_le h1))
        · refine ih _ ?_ ?_
          · simp [hmem]
            exact h1
          · simp [hmem]
            exact h2

end Algo

/-- C9: `validate_constraints` emits its roll-number count-mismatch
violation exactly when the number of unique identifiers differs from the
number of allocated (non-broken, identifier-bearing) seats — and since the
expected total is computed as that very count, this happens if and only if
at least one duplicate-roll-number violation is emitted. -/
theorem C9_count_mismatch_iff_duplicate (st : Algo.AlgoState)
    (hdims : st.seating_plan.length = st.cfg.rows ∧
      ∀ row ∈ st.seating_plan, row.length = st.cfg.cols) :
    (Algo.check3mismatch st.cfg st.seating_plan ≠ [] ↔
      (Algo.check3Fold st.cfg st.seating_plan).seen.length ≠
        (Algo.check3Fold st.cfg st.seating_plan).assigned) ∧
    (Algo.check3mismatch st.cfg st.seating_plan ≠ [] ↔
      Algo.check3dups st.cfg st.seating_plan ≠ []) := by
  have hinv := Algo.check3_invariant st.seating_plan
    (Algo.rowMajorPositions st.cfg) { seen := [], assigned := 0, dups := [] }
    (by simp) (by simp)
  have hinv2 : ((Algo.check3Fold st.cfg st.seating_plan).seen.length =
      (Algo.check3Fold st.cfg st.seating_plan).assigned ↔
      (Algo.check3Fold st.cfg st.seating_plan).dups = []) := hinv.2
  by_cases hne : (Algo.check3Fold st.cfg st.seating_plan).seen.length =
      (Algo.check3Fold st.cfg st.seating_plan).assigned
  · have hdup := hinv2.1 hne
    constructor
    · simp [Algo.check3mismatch, hne]
    · simp [Algo.check3mismatch, Algo.check3dups, hne, hdup]
  · have hdup : ¬ (Algo.check3Fold st.cfg st.seating_plan).dups = [] :=
      fun hd => hne (hinv2.2 hd)
    constructor
    · simp [Algo.check3mismatch, hne]
    · simp [Algo.check3mismatch, Algo.check3dups, hne, hdup]

/-- Witness for C9 on a plan holding a duplicated identifier: the duplicate
violation fires, and accordingly the count-mismatch violation fires too. -/
theorem C9_count_mismatch_iff_duplicate_witness :
    (Algo.check3mismatch stC9.cfg stC9.seating_plan ≠ [] ↔
      Algo.check3dups stC9.cfg stC9.seating_plan ≠ []) ∧
    Algo.check3dups stC9.cfg stC9.seating_plan ≠ [] :=
  ⟨(C9_count_mismatch_iff_duplicate stC9 ⟨by decide, by decide⟩).2, by decide⟩

/-! ### Dict-update lemmas -/

theorem dictGet_cons {α : Type} (k : Nat) (q : Nat × α) (l : List (Nat × α)) :
    dictGet (q :: l) k = if q.1 = k then some q.2 else dictGet l k := by
  unfold dictGet
  by_cases h : q.1 = k
  · simp [List.find?_cons, h]
  · simp [List.find?_cons, h]

theorem dictGet_append_sngl {α : Type} (k k2 : Nat) (v : α) (l : List (Nat × α)) :
    dictGet (l ++ [(k2, v)]) k =
      ((dictGet l k).orElse (fun _ => if k2 = k then some v else none)) := by
  induction l with
  | nil => by_cases h : k2 = k <;> simp [dictGet, List.find?, h]
  | cons q tl ih =>
    rw [List.cons_append, dictGet_cons, dictGet_cons]
    by_cases h : q.1 = k
    · simp [h]
    · simp only [h, if_false]
      exact ih

theorem dictGet_replace {α : Type} (k : Nat) (v : α) (l : List (Nat × α)) :
    dictGet (l.map (fun q => if q.1 = k then (k, v) else q)) k =
      (dictGet l k).map (fun _ => v) := by
  induction l with
  | nil => rfl
  | cons q tl ih =>
    by_cases h : q.1 = k
    · simp only [List.map_cons, if_pos h]
      rw [dictGet_cons, dictGet_cons]
      simp [h]
    · simp only [List.map_cons, if_neg h]
      rw [dictGet_cons, dictGet_cons]
      simp only [h, if_false]
      exact ih

theorem dictGet_replace_ne {α : Type} (k k2 : Nat) (v : α) (l : List (Nat × α))
    (h : k2 ≠ k) :
    dictGet (l.map (fun q => if q.1 = k then (k, v) else q)) k2 = dictGet l k2 := by
  induction l with
  | nil => rfl
  | cons q tl ih =>
    by_cases hq : q.1 = k
    · simp only [List.map_cons, if_pos hq]
      rw [dictGet_cons, dictGet_cons]
      have : ¬ (k = k2) := fun he => h he.symm
      simp only [this, if_false, hq, Ne.symm, h]
      have : ¬ (q.1 = k2) := by rw [hq]; exact fun he => h he.symm
      simp [this, ih]
    · simp only [List.map_cons, if_neg hq]
      rw [dictGet_cons, dictGet_cons]
      by_cases h2 : q.1 = k2
      · simp [h2]
      · simp [h2, ih]

theorem dictGet_dictSet_self {α : Type} (k : Nat) (v : α) (l : List (Nat × α)) :
    dictGet (dictSet l k v) k = some v := by
  unfold dictSet
  by_cases h : dictHas l k
  · rw [if_pos h, dictGet_replace]
    unfold dictHas at h
    cases hg : dictGet l k with
    | none => rw [hg] at h; cases h
    | some w => simp
  · rw [if_neg h, dictGet_append_sngl]
    unfold dictHas at h
    cases hg : dictGet l k with
    | none => simp [Option.orElse]
    | some w => rw [hg] at h; simp at h

theorem dictGet_dictSet_ne {α : Type} (k k2 : Nat) (v : α) (l : List (Nat × α))
    (h : k2 ≠ k) :
    dictGet (dictSet l k v) k2 = dictGet l k2 := by
  unfold dictSet
  by_cases hh : dictHas l k
  · rw [if_pos hh, dictGet_replace_ne _ _ _ _ h]
  · rw [if_neg hh, dictGet_append_sngl]
    cases hg : dictGet l k2 with
    | none => simp [Option.orElse, Ne.symm h]
    | some w => simp

namespace Algo

theorem orElse_none_fun {α : Type} (o : Option α) :
    (o.orElse (fun _ => none)) = o := by
  cases o <;> rfl

/-- Batches not mentioned by the remaining `start_rolls` entries keep their
inferred template and starting serial. -/
theorem startRolls_fold_preserve (pw : Nat) (b : Nat) :
    ∀ (l : List (Nat × String)) (acc : List (Nat × String) × List (Nat × Nat) × Nat),
      b ∉ l.map Prod.fst →
      dictGet (l.foldl (startRollStep pw) acc).1 b = dictGet acc.1 b ∧
      dictGet (l.foldl (startRollStep pw) acc).2.1 b = dictGet acc.2.1 b := by
  intro l
  induction l with
  | nil => intro acc h; exact ⟨rfl, rfl⟩
  | cons e tl ih =>
    intro acc h
    simp only [List.map_cons, List.mem_cons] at h
    push_neg at h
    obtain ⟨hne, htl⟩ := h
    simp only [List.foldl_cons]
    obtain ⟨h1, h2⟩ := ih (startRollStep pw acc e) htl
    rw [h1, h2]
    obtain ⟨tm, se, wi⟩ := acc
    simp only [startRollStep]
    by_cases hds : trailingDigits (pyStrip e.2) = []
    · simp [hds]
    · rw [if_neg hds]
      constructor
      · exact dictGet_dictSet_ne _ _ _ _ hne
      · show dictGet (if dictHas se e.1 then se
            else se ++ [(e.1, digitsVal (trailingDigits (pyStrip e.2)))]) b = dictGet se b
        by_cases hh : dictHas se e.1
        · rw [if_pos hh]
        · rw [if_neg hh, dictGet_append_sngl]
          have hne2 : ¬ (e.1 = b) := fun he => hne (he ▸ rfl)
          simp only [hne2, if_false]
          exact orElse_none_fun _

/-- The `__init__` loop over `start_rolls`: an entry `(b, s)` whose trimmed
string ends in digits installs the inferred template for batch `b`, and —
when no starting serial was supplied for `b` — the digit run's value as its
starting serial. -/
theorem startRolls_fold_inference (pw : Nat) (b : Nat) (s : String) :
    ∀ (l : List (Nat × String)) (acc : List (Nat × String) × List (Nat × Nat) × Nat),
      (l.map Prod.fst).Nodup → (b, s) ∈ l →
      trailingDigits (pyStrip s) ≠ [] →
      dictGet (l.foldl (startRollStep pw) acc).1 b =
        some (leadingPart (pyStrip s) ++ "{serial}") ∧
      (dictGet acc.2.1 b = none →
        dictGet (l.foldl (startRollStep pw) acc).2.1 b =
          some (digitsVal (trailingDigits (pyStrip s)))) := by
  intro l
  induction l with
  | nil => intro acc _ hmem; cases hmem
  | cons e tl ih =>
    intro acc hnd hmem hds
    simp only [List.map_cons, List.nodup_cons] at hnd
    obtain ⟨hnotin, hndtl⟩ := hnd
    simp only [List.foldl_cons]
    rcases List.mem_cons.1 hmem with heq | htl
    · obtain ⟨rfl, rfl⟩ : e.1 = b ∧ e.2 = s := by
        rw [← heq]
        exact ⟨rfl, rfl⟩
      obtain ⟨hp1, hp2⟩ := startRolls_fold_preserve pw e.1 tl
        (startRollStep pw acc e) hnotin
      rw [hp1, hp2]
      obtain ⟨tm, se, wi⟩ := acc
      simp only [startRollStep]
      rw [if_neg hds]
      constructor
      · exact dictGet_dictSet_self _ _ _
      · intro hnone
        have hh : ¬ dictHas se e.1 = true := by
          unfold dictHas
          rw [hnone]
          simp
        show dictGet (if dictHas se e.1 then se
            else se ++ [(e.1, digitsVal (trailingDigits (pyStrip e.2)))]) e.1 =
          some (digitsVal (trailingDigits (pyStrip e.2)))
        rw [if_neg hh, dictGet_append_sngl, hnone]
        simp [Option.orElse]
    · have hbin : b ∈ tl.map Prod.fst :=
        List.mem_map.2 ⟨(b, s), htl, rfl⟩
      have hne : b ≠ e.1 := fun he => hnotin (he ▸ hbin)
      have hstep : dictGet (startRollStep pw acc e).2.1 b = dictGet acc.2.1 b := by
        obtain ⟨tm, se, wi⟩ := acc
        simp only [startRollStep]
        by_cases hds2 : trailingDigits (pyStrip e.2) = []
        · simp [hds2]
        · rw [if_neg hds2]
          show dictGet (if dictHas se e.1 then se
              else se ++ [(e.1, digitsVal (trailingDigits (pyStrip e.2)))]) b = dictGet se b
          by_cases hh : dictHas se e.1
          · rw [if_pos hh]
          · rw [if_neg hh, dictGet_append_sngl]
            have hne2 : ¬ (e.1 = b) := fun he => hne he.symm
            simp only [hne2, if_false]
            exact orElse_none_fun _
      obtain ⟨h1, h2⟩ := ih (startRollStep pw acc e) hndtl htl hds
      exact ⟨h1, fun hnone => h2 (hstep ▸ hnone)⟩

/-- A nonzero `serial_width` argument is kept verbatim: the digit-run
inference never changes it. -/
theorem startRolls_fold_width (pw : Nat) (hpw : pw ≠ 0) :
    ∀ (l : List (Nat × String)) (acc : List (Nat × String) × List (Nat × Nat) × Nat),
      (l.foldl (startRollStep pw) acc).2.2 = acc.2.2 := by
  intro l
  induction l with
  | nil => intro acc; rfl
  | cons e tl ih =>
    intro acc
    simp only [List.foldl_cons]
    rw [ih]
    obtain ⟨tm, se, wi⟩ := acc
    simp only [startRollStep]
    by_cases hds : trailingDigits (pyStrip e.2) = []
    · simp [hds]
    · rw [if_neg hds]
      show (if pw = 0 then max wi (trailingDigits (pyStrip e.2)).length else wi) = wi
      rw [if_neg hpw]

end Algo

/-! ### `str.format` on clean inferred templates -/

theorem pyFormatGo_clean (p y s : String) :
    ∀ (l : List Char) (fuel : Nat),
      (∀ c ∈ l, c ≠ '\x7b' ∧ c ≠ '\x7d') →
      l.length + 8 ≤ fuel →
      pyFormatGo p y s fuel (l ++ "{serial}".data) = some (l ++ s.data) := by
  intro l
  induction l with
  | nil =>
    intro fuel _ hf
    match fuel, hf with
    | f + 2, _ =>
      have h0 : pyFormatGo p y s (f + 2) ([] ++ "{serial}".data) =
          some (s.data ++ []) := rfl
      rw [h0]
      simp
  | cons c l ih =>
    intro fuel hcl hf
    obtain ⟨hc, hl⟩ : (c ≠ '\x7b' ∧ c ≠ '\x7d') ∧
        ∀ c2 ∈ l, c2 ≠ '\x7b' ∧ c2 ≠ '\x7d' := by
      constructor
      · exact hcl c (List.mem_cons_self c l)
      · exact fun c2 h2 => hcl c2 (List.mem_cons_of_mem c h2)
    match fuel, hf with
    | f + 1, hf =>
      show pyFormatGo p y s (f + 1) (c :: (l ++ "{serial}".data)) = _
      rw [pyFormatGo]
      rw [if_neg hc.1, if_neg hc.2, ih f hl (by simp at hf; omega)]
      rfl

theorem pyFormat_clean (pre p y s : String)
    (h : ∀ c ∈ pre.data, c ≠ '\x7b' ∧ c ≠ '\x7d') :
    pyFormat (pre ++ "{serial}") p y s = some (pre ++ s) := by
  unfold pyFormat
  have hdata : (pre ++ "{serial}").data = pre.data ++ "{serial}".data :=
    String.data_append pre _
  rw [hdata, pyFormatGo_clean p y s pre.data _ h (by simp [hdata])]
  have : String.mk (pre.data ++ s.data) = pre ++ s := by
    have := String.data_append pre s
    cases hps : pre ++ s
    rw [hps] at this
    simp at this
    rw [this]
  simp [this]

theorem formatRoll_clean (pre p y s : String)
    (h : ∀ c ∈ pre.data, c ≠ '\x7b' ∧ c ≠ '\x7d') :
    formatRoll (pre ++ "{serial}") p y s = pre ++ s := by
  unfold formatRoll
  rw [pyFormat_clean pre p y s h]

namespace Algo

/-- A queue-building step touches only its own batch's queue. -/
theorem buildQueuesStep_other (cfg : AlgoCfg) (acc : (Nat → List String) × Nat)
    (i x : Nat) (hx : x ≠ i + 1) :
    (buildQueuesStep cfg acc i).1 x = acc.1 x := by
  obtain ⟨qs, nr⟩ := acc
  unfold buildQueuesStep
  by_cases h1 : pyTruthyStr (batchTemplate cfg (i + 1)) = true
  · simp only [h1]
    by_cases h2 : cfg.serial_mode = "per_batch"
    · simp [h2, Function.update_apply, hx]
    · simp [h2, Function.update_apply, hx]
  · simp only [Bool.not_eq_true] at h1
    simp [h1, Function.update_apply, hx]

/-- In `per_batch` serial mode, batch `b`'s queue is the eagerly formatted
roll list for its size, starting at its (possibly inferred) start serial. -/
theorem initQueues_per_batch (cfg : AlgoCfg) (b : Nat)
    (hb1 : 1 ≤ b) (hb2 : b ≤ cfg.num_batches)
    (ht : pyTruthyStr (batchTemplate cfg b) = true)
    (hm : cfg.serial_mode = "per_batch") :
    (initQueues cfg).1 b = (List.range (batchSize cfg b)).map
      (fun j => formatRoll ((batchTemplate cfg b).getD "") (prefixOf cfg b)
        (yearStr cfg)
        (serialStr cfg (dictGetD cfg.start_serials b cfg.start_serial + j))) := by
  have main : ∀ n (acc : (Nat → List String) × Nat), b ≤ n →
      (((List.range n).foldl (buildQueuesStep cfg) acc).1 b =
        (List.range (batchSize cfg b)).map
          (fun j => formatRoll ((batchTemplate cfg b).getD "") (prefixOf cfg b)
            (yearStr cfg)
            (serialStr cfg (dictGetD cfg.start_serials b cfg.start_serial + j)))) := by
    intro n
    induction n with
    | zero => intro acc h; omega
    | succ n ih =>
      intro acc h
      rw [List.range_succ, List.foldl_append]
      rcases Nat.lt_or_ge b (n + 1) with hlt | hge
      · simp only [List.foldl_cons, List.foldl_nil]
        rw [buildQueuesStep_other cfg _ n b (by omega)]
        exact ih acc (by omega)
      · have hbn : b = n + 1 := by omega
        subst hbn
        simp only [List.foldl_cons, List.foldl_nil]
        obtain ⟨qs, nr⟩ := ((List.range n).foldl (buildQueuesStep cfg) acc)
        unfold buildQueuesStep
        simp only [ht, hm]
        simp [Function.update_apply]
  exact main cfg.num_batches _ hb2

end Algo

/-- C7 (amended): a `start_rolls` example identifier for batch `b` (with
distinct `start_rolls` keys, as a Python dict guarantees) has its trailing
digit run taken as the batch's starting serial and everything before it as
the literal template prefix; the digit run's length becomes the zero-pad
width only when the caller supplied `serial_width` 0 (the source's
`None`/`0` sentinel) — any nonzero configured width (including the default
4) is kept verbatim; and in `per_batch` serial mode the batch's queue is
then the prefix followed by consecutive serials rendered through the
configured width. -/
theorem C7_start_roll_template_inference (p : Algo.AlgoParams) (b : Nat) (s : String)
    (hmem : (b, s) ∈ p.start_rolls)
    (hkeys : (p.start_rolls.map Prod.fst).Nodup)
    (hds : Algo.trailingDigits (pyStrip s) ≠ [])
    (hser : dictGet p.start_serials b = none)
    (hw : p.serial_width ≠ 0) :
    dictGet (Algo.mkAlgo p).cfg.batch_templates b =
      some (Algo.leadingPart (pyStrip s) ++ "{serial}") ∧
    dictGet (Algo.mkAlgo p).cfg.start_serials b =
      some (Algo.digitsVal (Algo.trailingDigits (pyStrip s))) ∧
    (Algo.mkAlgo p).cfg.serial_width = p.serial_width ∧
    (p.serial_mode = "per_batch" → 1 ≤ b → b ≤ p.num_batches →
      (∀ c ∈ (Algo.leadingPart (pyStrip s)).data, c ≠ '\x7b' ∧ c ≠ '\x7d') →
      (Algo.initQueues (Algo.mkAlgo p).cfg).1 b =
        (List.range (Algo.batchSize (Algo.mkAlgo p).cfg b)).map
          (fun j => Algo.leadingPart (pyStrip s) ++
            Algo.serialStr (Algo.mkAlgo p).cfg
              (Algo.digitsVal (Algo.trailingDigits (pyStrip s)) + j))) := by
  have hfold := Algo.startRolls_fold_inference p.serial_width b s p.start_rolls
    ([], p.start_serials, max 0 p.serial_width) hkeys hmem hds
  have h1 : dictGet (Algo.mkAlgo p).cfg.batch_templates b =
      some (Algo.leadingPart (pyStrip s) ++ "{serial}") := hfold.1
  have h2 : dictGet (Algo.mkAlgo p).cfg.start_serials b =
      some (Algo.digitsVal (Algo.trailingDigits (pyStrip s))) := hfold.2 hser
  have h3 : (Algo.mkAlgo p).cfg.serial_width = p.serial_width := by
    have hwidth := Algo.startRolls_fold_width p.serial_width hw p.start_rolls
      ([], p.start_serials, max 0 p.serial_width)
    have : (Algo.mkAlgo p).cfg.serial_width =
        (p.start_rolls.foldl (Algo.startRollStep p.serial_width)
          ([], p.start_serials, max 0 p.serial_width)).2.2 := rfl
    rw [this, hwidth]
    simp
  refine ⟨h1, h2, h3, ?_⟩
  intro hm hb1 hb2 hbr
  have hbt : Algo.batchTemplate (Algo.mkAlgo p).cfg b =
      some (Algo.leadingPart (pyStrip s) ++ "{serial}") := by
    unfold Algo.batchTemplate
    rw [h1]
  have htr : pyTruthyStr (Algo.batchTemplate (Algo.mkAlgo p).cfg b) = true := by
    rw [hbt]
    unfold pyTruthyStr
    simp only [ne_eq, decide_eq_true_eq]
    intro he
    have := congrArg String.data he
    rw [String.data_append] at this
    simp at this
  have hq := Algo.initQueues_per_batch (Algo.mkAlgo p).cfg b hb1 hb2 htr hm
  rw [hq]
  have hfun : (fun j => formatRoll
      ((Algo.batchTemplate (Algo.mkAlgo p).cfg b).getD "")
      (Algo.prefixOf (Algo.mkAlgo p).cfg b) (Algo.yearStr (Algo.mkAlgo p).cfg)
      (Algo.serialStr (Algo.mkAlgo p).cfg
        (dictGetD (Algo.mkAlgo p).cfg.start_serials b
          (Algo.mkAlgo p).cfg.start_serial + j))) =
      (fun j => Algo.leadingPart (pyStrip s) ++
        Algo.serialStr (Algo.mkAlgo p).cfg
          (Algo.digitsVal (Algo.trailingDigits (pyStrip s)) + j)) := by
    funext j
    rw [hbt]
    show formatRoll (Algo.leadingPart (pyStrip s) ++ "{serial}") _ _ _ = _
    rw [formatRoll_clean _ _ _ _ hbr, dictGetD_of_get _ h2]
  rw [hfun]

/-- Counterexample to C7 as stated: for `start_rolls={1: "AB007"}` with the
width left at its default 4, the digit run has length 3, but the inferred
width is NOT 3 — the engine keeps 4 and produces `AB0007`, not the `AB007`
the claim's padding rule dictates. -/
theorem C7_width_not_inferred_counterexample :
    Algo.trailingDigits "AB007" = ['0', '0', '7'] ∧
    pC7x.serial_width = 4 ∧
    (Algo.mkAlgo pC7x).cfg.serial_width = 4 ∧
    (Algo.seatAt (Algo.mkAlgo pC7x).cfg 0 0).roll_number = some "AB0007" ∧
    ("AB0007" : String) ≠ "AB" ++ "007" := by
  refine ⟨?_, ?_, ?_, ?_, ?_⟩ <;> decide

/-- Witness for the amended C7 at example scenario 4
(`start_rolls={1: "BTCS24O1135"}`): the inferred template, serial and the
resulting identifiers `BTCS24O1135, BTCS24O1136` padded to width 4. -/
theorem C7_start_roll_template_inference_witness :
    dictGet (Algo.mkAlgo pC7).cfg.batch_templates 1 =
      some (Algo.leadingPart (pyStrip "BTCS24O1135") ++ "{serial}") ∧
    dictGet (Algo.mkAlgo pC7).cfg.start_serials 1 =
      some (Algo.digitsVal (Algo.trailingDigits (pyStrip "BTCS24O1135"))) ∧
    (Algo.mkAlgo pC7).cfg.serial_width = 4 ∧
    (Algo.initQueues (Algo.mkAlgo pC7).cfg).1 1 = ["BTCS24O1135", "BTCS24O1136"] ∧
    (Algo.seatAt (Algo.mkAlgo pC7).cfg 0 0).roll_number = some "BTCS24O1135" ∧
    (Algo.seatAt (Algo.mkAlgo pC7).cfg 1 0).roll_number = some "BTCS24O1136" := by
  have h := C7_start_roll_template_inference pC7 1 "BTCS24O1135"
    (by decide) (by decide) (by decide) (by decide) (by decide)
  exact ⟨h.1, h.2.1, h.2.2.1, by decide, by decide, by decide⟩

/-! ### Core engine: paper-set resolver lemmas -/

namespace Core

theorem nearestAbove_lt (cfg : CoreCfg) (c : Nat) :
    ∀ r r2, nearestAbove cfg c r = some r2 → r2 < r := by
  intro r
  induction r with
  | zero => intro r2 h; cases h
  | succ r ih =>
    intro r2 h
    unfold nearestAbove at h
    by_cases hbr : isBrokenPos cfg r c = true
    · rw [if_neg (by simp [hbr])] at h
      have := ih r2 h
      omega
    · rw [if_pos (by simp [hbr])] at h
      cases h
      omega

theorem nearestAbove_not_broken (cfg : CoreCfg) (c : Nat) :
    ∀ r r2, nearestAbove cfg c r = some r2 → isBrokenPos cfg r2 c = false := by
  intro r
  induction r with
  | zero => intro r2 h; cases h
  | succ r ih =>
    intro r2 h
    unfold nearestAbove at h
    by_cases hbr : isBrokenPos cfg r c = true
    · rw [if_neg (by simp [hbr])] at h
      exact ih r2 h
    · rw [if_pos (by simp [hbr])] at h
      cases h
      simpa using hbr

theorem nearestLeftStudent_lt (cfg : CoreCfg) (r : Nat) :
    ∀ c c2, nearestLeftStudent cfg r c = some c2 → c2 < c := by
  intro c
  induction c with
  | zero => intro c2 h; cases h
  | succ c ih =>
    intro c2 h
    unfold nearestLeftStudent at h
    by_cases hc : (¬ isBrokenPos cfg r c = true) ∧ (batchOfCol cfg c).isSome = true
    · rw [if_pos hc] at h
      cases h
      omega
    · rw [if_neg hc] at h
      have := ih c2 h
      omega

theorem nearestLeftStudent_props (cfg : CoreCfg) (r : Nat) :
    ∀ c c2, nearestLeftStudent cfg r c = some c2 →
      isBrokenPos cfg r c2 = false ∧ (batchOfCol cfg c2).isSome = true := by
  intro c
  induction c with
  | zero => intro c2 h; cases h
  | succ c ih =>
    intro c2 h
    unfold nearestLeftStudent at h
    by_cases hc : (¬ isBrokenPos cfg r c = true) ∧ (batchOfCol cfg c).isSome = true
    · rw [if_pos hc] at h
      cases h
      exact ⟨by simpa using hc.1, hc.2⟩
    · rw [if_neg hc] at h
      exact ih c2 h

end Core

namespace Core

theorem paperSetGo_fuel (cfg : CoreCfg) :
    ∀ a b r c, r + c < a → r + c < b →
      paperSetGo cfg a r c = paperSetGo cfg b r c := by
  intro a
  induction a with
  | zero => intro b r c h; omega
  | succ a ih =>
    intro b r c h1 h2
    cases b with
    | zero => omega
    | succ b =>
      simp only [paperSetGo]
      by_cases hbr : isBrokenPos cfg r c = true
      · simp [hbr]
      · simp only [hbr, Bool.false_eq_true, if_false]
        cases hb : batchOfCol cfg c with
        | none => rfl
        | some bb =>
          cases hna : nearestAbove cfg c r with
          | some r2 =>
            have hr2 : r2 < r := nearestAbove_lt cfg c r r2 hna
            dsimp only
            rw [ih b r2 c (by omega) (by omega)]
            simp
          | none =>
            dsimp only
            cases hnl : nearestLeftStudent cfg r c with
            | some c2 =>
              have hc2 : c2 < c := nearestLeftStudent_lt cfg r c c2 hnl
              dsimp only
              by_cases hb2 : batchOfCol cfg c2 = some bb
              · simp only [if_pos hb2]
                rw [ih b r c2 (by omega) (by omega)]
              · simp only [if_neg hb2]
            | none => rfl

end Core

namespace Core

/-- Tier 1 of the resolver: a non-broken, batch-carrying seat whose nearest
non-broken seat above exists (hence carries the same column batch) receives
the flipped paper set of that seat. -/
theorem paperSetAt_tier1 (cfg : CoreCfg) (r c r2 b : Nat)
    (hna : nearestAbove cfg c r = some r2)
    (hbr : isBrokenPos cfg r c = false)
    (hb : batchOfCol cfg c = some b) :
    paperSetAt cfg r c = (paperSetAt cfg r2 c).map flipPS := by
  have hr2 : r2 < r := nearestAbove_lt cfg c r r2 hna
  have key : paperSetGo cfg (r + c + 1) r c =
      (paperSetGo cfg (r + c) r2 c).map flipPS := by
    simp only [paperSetGo, hbr, Bool.false_eq_true, if_false, hb, hna, if_true]
  show paperSetGo cfg (r + c + 1) r c = _
  rw [key, paperSetGo_fuel cfg (r + c) (r2 + c + 1) r2 c (by omega) (by omega)]
  rfl

/-- Tier 2 of the resolver: with no seat above, the nearest batch-carrying
seat to the left forces the flipped paper set when it shares the batch. -/
theorem paperSetAt_tier2 (cfg : CoreCfg) (r c c2 b : Nat)
    (hna : nearestAbove cfg c r = none)
    (hnl : nearestLeftStudent cfg r c = some c2)
    (hbr : isBrokenPos cfg r c = false)
    (hb : batchOfCol cfg c = some b)
    (hb2 : batchOfCol cfg c2 = some b) :
    paperSetAt cfg r c = (paperSetAt cfg r c2).map flipPS := by
  have hc2 : c2 < c := nearestLeftStudent_lt cfg r c c2 hnl
  have key : paperSetGo cfg (r + c + 1) r c =
      (paperSetGo cfg (r + c) r c2).map flipPS := by
    simp only [paperSetGo, hbr, Bool.false_eq_true, if_false, hb, hna, hnl, hb2,
      if_true]
  show paperSetGo cfg (r + c + 1) r c = _
  rw [key, paperSetGo_fuel cfg (r + c) (r + c2 + 1) r c2 (by omega) (by omega)]
  rfl

/-- Tier 3 of the resolver (no applicable neighbor): positional
checkerboard on row plus offset-within-block. -/
theorem paperSetAt_tier3 (cfg : CoreCfg) (r c b : Nat)
    (hna : nearestAbove cfg c r = none)
    (hbr : isBrokenPos cfg r c = false)
    (hb : batchOfCol cfg c = some b)
    (h2 : nearestLeftStudent cfg r c = none ∨
      ∃ c2, nearestLeftStudent cfg r c = some c2 ∧ batchOfCol cfg c2 ≠ some b) :
    paperSetAt cfg r c =
      some (if (r + colInBlock cfg c) % 2 = 0 then PaperSet.A else PaperSet.B) := by
  show paperSetGo cfg (r + c + 1) r c = _
  rcases h2 with hnl | ⟨c2, hnl, hne⟩
  · simp only [paperSetGo, hbr, Bool.false_eq_true, if_false, hb, hna, hnl]
  · simp only [paperSetGo, hbr, Bool.false_eq_true, if_false, hb, hna, hnl,
      if_neg hne]

/-- Every non-broken seat of a batch-owning column resolves to a paper
set. -/
theorem paperSetAt_isSome (cfg : CoreCfg) :
    ∀ n r c, r + c = n → isBrokenPos cfg r c = false →
      (batchOfCol cfg c).isSome = true → (paperSetAt cfg r c).isSome = true := by
  intro n
  induction n using Nat.strong_induction_on with
  | _ n ih =>
    intro r c hn hbr hb
    obtain ⟨bb, hb2⟩ := Option.isSome_iff_exists.1 hb
    cases hna : nearestAbove cfg c r with
    | some r2 =>
      have hr2 : r2 < r := nearestAbove_lt cfg c r r2 hna
      rw [paperSetAt_tier1 cfg r c r2 bb hna hbr hb2]
      have := ih (r2 + c) (by omega) r2 c rfl
        (nearestAbove_not_broken cfg c r r2 hna) (by rw [hb2]; rfl)
      simpa using this
    | none =>
      cases hnl : nearestLeftStudent cfg r c with
      | some c2 =>
        have hc2 : c2 < c := nearestLeftStudent_lt cfg r c c2 hnl
        obtain ⟨hbrok2, hsome2⟩ := nearestLeftStudent_props cfg r c c2 hnl
        by_cases hb3 : batchOfCol cfg c2 = some bb
        · rw [paperSetAt_tier2 cfg r c c2 bb hna hnl hbr hb2 hb3]
          have := ih (r + c2) (by omega) r c2 rfl hbrok2 hsome2
          simpa using this
        · rw [paperSetAt_tier3 cfg r c bb hna hbr hb2 (Or.inr ⟨c2, hnl, hb3⟩)]
          rfl
      | none =>
        rw [paperSetAt_tier3 cfg r c bb hna hbr hb2 (Or.inl hnl)]
        rfl

end Core

namespace Core

/-- A non-broken seat of a batch-owning column carries the resolver's paper
set (whether or not an identifier was still available). -/
theorem coreSeatAt_paper (cfg : CoreCfg) (r c b : Nat)
    (hbr : isBrokenPos cfg r c = false)
    (hb : batchOfCol cfg c = some b) :
    (coreSeatAt cfg r c).paper_set = paperSetAt cfg r c := by
  unfold coreSeatAt
  rw [if_neg (by simp [hbr]), hb]
  dsimp only
  split
  · rfl
  · rfl

/-- A non-broken seat of a batch-owning column carries that batch. -/
theorem coreSeatAt_batch (cfg : CoreCfg) (r c b : Nat)
    (hbr : isBrokenPos cfg r c = false)
    (hb : batchOfCol cfg c = some b) :
    (coreSeatAt cfg r c).batch = some b := by
  unfold coreSeatAt
  rw [if_neg (by simp [hbr]), hb]
  dsimp only
  split
  · rfl
  · rfl

end Core

/-- C1 (spec-modelled): in the core engine, whenever the nearest non-broken
seat strictly above a non-broken batch-carrying seat exists (skipping broken
seats; in column-major ownership it then carries the same batch), the two
seats receive opposite paper sets; in particular for
`rows=4, cols=1, num_batches=1, broken_seats=[(1,0)]` the seats at (0,0)
and (2,0) have different paper sets. -/
theorem C1_vertical_tier_alternation :
    (∀ (cfg : Core.CoreCfg) (r c r2 b : Nat),
      Core.isBrokenPos cfg r c = false →
      Core.batchOfCol cfg c = some b →
      Core.nearestAbove cfg c r = some r2 →
      (Core.coreSeatAt cfg r c).paper_set =
        ((Core.coreSeatAt cfg r2 c).paper_set).map Core.flipPS ∧
      ((Core.coreSeatAt cfg r c).paper_set).isSome = true) ∧
    ((Core.coreSeatAt cC1 0 0).paper_set = some PaperSet.A ∧
      (Core.coreSeatAt cC1 2 0).paper_set = some PaperSet.B ∧
      (Core.coreSeatAt cC1 0 0).paper_set ≠ (Core.coreSeatAt cC1 2 0).paper_set) := by
  constructor
  · intro cfg r c r2 b hbr hb hna
    have hbr2 : Core.isBrokenPos cfg r2 c = false :=
      Core.nearestAbove_not_broken cfg c r r2 hna
    rw [Core.coreSeatAt_paper cfg r c b hbr hb,
      Core.coreSeatAt_paper cfg r2 c b hbr2 hb]
    refine ⟨Core.paperSetAt_tier1 cfg r c r2 b hna hbr hb, ?_⟩
    exact Core.paperSetAt_isSome cfg (r + c) r c rfl hbr (by rw [hb]; rfl)
  · exact ⟨by decide, by decide, by decide⟩

/-- Witness for C1's general tier at the example configuration: seat (2,0)
receives the flip of seat (0,0)'s paper set. -/
theorem C1_vertical_tier_alternation_witness :
    (Core.coreSeatAt cC1 2 0).paper_set =
      ((Core.coreSeatAt cC1 0 0).paper_set).map Core.flipPS ∧
    ((Core.coreSeatAt cC1 2 0).paper_set).isSome = true :=
  C1_vertical_tier_alternation.1 cC1 2 0 0 1 (by decide) (by decide) (by decide)

/-- C2 (spec-modelled): with a single batch and adjacent same-batch seating
not explicitly allowed, every second column within each block (odd offset
within its block) is left with no batch assignment — neither allocated nor
broken; in particular for `rows=1, cols=4, block_width=2, num_batches=1`,
columns 0 and 2 receive students of batch 1, columns 1 and 3 are gaps, and
the seats in columns 0 and 2 do not share the same paper set. -/
theorem C2_single_batch_gap_columns :
    (∀ (cfg : Core.CoreCfg), cfg.num_batches = 1 →
      cfg.allow_adjacent_same_batch = false →
      ∀ c r, Core.colInBlock cfg c % 2 = 1 →
        Core.isBrokenPos cfg r c = false →
        (Core.coreSeatAt cfg r c).batch = none ∧
        (Core.coreSeatAt cfg r c).roll_number = none ∧
        (Core.coreSeatAt cfg r c).is_broken = false) ∧
    ((Core.coreSeatAt cC2 0 0).batch = some 1 ∧
      ((Core.coreSeatAt cC2 0 0).roll_number).isSome = true ∧
      (Core.coreSeatAt cC2 0 2).batch = some 1 ∧
      ((Core.coreSeatAt cC2 0 2).roll_number).isSome = true ∧
      (Core.coreSeatAt cC2 0 1).batch = none ∧
      (Core.coreSeatAt cC2 0 1).roll_number = none ∧
      (Core.coreSeatAt cC2 0 3).batch = none ∧
      (Core.coreSeatAt cC2 0 3).roll_number = none ∧
      (Core.coreSeatAt cC2 0 0).paper_set ≠ (Core.coreSeatAt cC2 0 2).paper_set) := by
  constructor
  · intro cfg h1 h2 c r hodd hbr
    have hgap : Core.batchOfCol cfg c = none := by
      unfold Core.batchOfCol
      rw [if_neg (by omega), if_pos ⟨h1, by simp [h2], hodd⟩]
    unfold Core.coreSeatAt
    rw [if_neg (by simp [hbr]), hgap]
    exact ⟨rfl, rfl, rfl⟩
  · refine ⟨by decide, by decide, by decide, by decide, by decide, by decide,
      by decide, by decide, by decide⟩

/-- Witness for C2's general gap rule at the example configuration: the
non-broken seat in gap column 1 carries no batch and no identifier. -/
theorem C2_single_batch_gap_columns_witness :
    (Core.coreSeatAt cC2 0 1).batch = none ∧
    (Core.coreSeatAt cC2 0 1).roll_number = none ∧
    (Core.coreSeatAt cC2 0 1).is_broken = false :=
  C2_single_batch_gap_columns.1 cC2 rfl rfl 1 0 (by decide) (by decide)

/-- C4 (spec-modelled): configuration errors — non-positive dimensions, a
batch count of zero, a block structure not summing to the column count —
are collected into `init_errors` instead of being raised, and
`generate_seating` still returns a fully-formed `rows × cols` grid; in
particular constructing the engine with `num_batches = 0` and generating
does not raise. -/
theorem C4_init_errors_collected :
    (∀ cfg : Core.CoreCfg,
      ((cfg.rows = 0 ∨ cfg.cols = 0) ∨ cfg.num_batches = 0 ∨
        (∃ bs, cfg.block_structure = some bs ∧ bs.sum ≠ cfg.cols)) →
      Core.init_errors cfg ≠ []) ∧
    (∀ cfg : Core.CoreCfg, (Core.generateSeating cfg).length = cfg.rows ∧
      ∀ row ∈ Core.generateSeating cfg, row.length = cfg.cols) ∧
    (Core.init_errors cC4 ≠ [] ∧ (Core.generateSeating cC4).length = cC4.rows ∧
      ∀ row ∈ Core.generateSeating cC4, row.length = cC4.cols) := by
  have hshape : ∀ cfg : Core.CoreCfg, (Core.generateSeating cfg).length = cfg.rows ∧
      ∀ row ∈ Core.generateSeating cfg, row.length = cfg.cols := by
    intro cfg
    constructor
    · simp [Core.generateSeating]
    · intro row hrow
      unfold Core.generateSeating at hrow
      obtain ⟨r, _, rfl⟩ := List.mem_map.1 hrow
      simp
  have herr : ∀ cfg : Core.CoreCfg,
      ((cfg.rows = 0 ∨ cfg.cols = 0) ∨ cfg.num_batches = 0 ∨
        (∃ bs, cfg.block_structure = some bs ∧ bs.sum ≠ cfg.cols)) →
      Core.init_errors cfg ≠ [] := by
    intro cfg h
    rcases h with h | h | ⟨bs, hbs, hsum⟩
    · simp [Core.init_errors, h]
    · simp [Core.init_errors, h]
    · simp [Core.init_errors, hbs, hsum]
  exact ⟨herr, hshape, herr cC4 (Or.inr (Or.inl rfl)), (hshape cC4).1, (hshape cC4).2⟩

/-- Witness for C4 at the zero-batch configuration: errors are reported and
the degenerate grid still has full `rows × cols` shape. -/
theorem C4_init_errors_collected_witness :
    Core.init_errors cC4 ≠ [] ∧ (Core.generateSeating cC4).length = cC4.rows :=
  ⟨C4_init_errors_collected.1 cC4 (Or.inr (Or.inl (by decide))),
    (C4_init_errors_collected.2.1 cC4).1⟩

/-! ### Plain numeric mode: every check of `validate_constraints` passes -/

theorem flatMap_nil {α β : Type} {l : List α} {f : α → List β}
    (h : ∀ a ∈ l, f a = []) : l.flatMap f = [] := by
  induction l with
  | nil => rfl
  | cons x xs ih =>
    rw [List.flatMap_cons, h x (List.mem_cons_self x xs),
      ih (fun a ha => h a (List.mem_cons_of_mem x ha))]
    rfl

namespace Algo

/-- With no configured template, no prefixes and no inferred per-batch
templates, every batch's template is `None`. -/
theorem batchTemplate_plain (cfg : AlgoCfg) (h1 : cfg.roll_template = none)
    (h2 : cfg.batch_prefixes = []) (h3 : cfg.batch_templates = []) (b : Nat) :
    batchTemplate cfg b = none := by
  unfold batchTemplate
  rw [h3]
  simp [dictGet, effectiveTemplate, h1, h2]

/-- Every non-broken seat of the column-major fill carries the positional
paper set of its cell. -/
theorem fillSeat_paper_of_not_broken (cfg : AlgoCfg) (st : FillSt) (r c : Nat)
    (hbr : (r, c) ∉ cfg.broken_seats) :
    (fillSeat cfg st r c).1.paper_set = some (calcPaperSet cfg r c) := by
  unfold fillSeat
  simp only [if_neg hbr]
  split
  · rfl
  · split
    · rfl
    · split
      · rfl
      · rfl

/-- Vertically adjacent cells always get opposite paper sets. -/
theorem calcPaperSet_ne_vert (cfg : AlgoCfg) (r c : Nat) :
    calcPaperSet cfg r c ≠ calcPaperSet cfg (r + 1) c := by
  unfold calcPaperSet
  by_cases hr : r % 2 = 0
  · have hr1 : (r + 1) % 2 = 1 := by omega
    by_cases hk : c % cfg.block_width % 2 = 0 <;> simp [hr, hr1, hk]
  · have hr1 : (r + 1) % 2 = 0 := by omega
    by_cases hk : c % cfg.block_width % 2 = 0 <;> simp [hr, hr1, hk]

/-- Horizontally adjacent cells of the same block get opposite paper sets. -/
theorem calcPaperSet_ne_horiz (cfg : AlgoCfg) (r c : Nat)
    (h : (c + 1) % cfg.block_width = c % cfg.block_width + 1) :
    calcPaperSet cfg r c ≠ calcPaperSet cfg r (c + 1) := by
  simp only [calcPaperSet, h]
  rcases Nat.mod_two_eq_zero_or_one (c % cfg.block_width) with hk | hk
  · have hk1 : (c % cfg.block_width + 1) % 2 = 1 := by omega
    by_cases hr : r % 2 = 0 <;> simp [hr, hk, hk1]
  · have hk1 : (c % cfg.block_width + 1) % 2 = 0 := by omega
    by_cases hr : r % 2 = 0 <;> simp [hr, hk, hk1]

/-- Check 2 never fires on a column-major plan: inside each block the
positional checkerboard alternates paper sets both ways. -/
theorem check2_plain (cfg : AlgoCfg) :
    check2 cfg (columnMajorPlan cfg) = [] := by
  unfold check2
  apply flatMap_nil
  intro block hblock
  dsimp only
  apply flatMap_nil
  intro r hrmem
  rw [List.mem_range] at hrmem
  apply flatMap_nil
  intro c hcmem
  obtain ⟨k, hk, rfl⟩ := List.mem_map.1 hcmem
  rw [List.mem_range] at hk
  have e2 : (block * cfg.block_width + k) % cfg.block_width = k := by
    rw [Nat.mul_comm, Nat.mul_add_mod]
    exact Nat.mod_eq_of_lt (by omega)
  generalize hs : block * cfg.block_width = s at hk e2 ⊢
  have hcc : s + k < cfg.cols := by omega
  rw [seatAtD_columnMajorPlan cfg r (s + k) hrmem hcc]
  by_cases hbr : (r, s + k) ∈ cfg.broken_seats
  · have hseat : seatAt cfg r (s + k) = brokenSeat r (s + k) := by
      unfold seatAt; rw [fillSeat_of_broken _ _ _ _ hbr]
    rw [hseat]
    rfl
  · have hflag : (seatAt cfg r (s + k)).is_broken = false :=
      fillSeat_not_broken_flag cfg _ r (s + k) hbr
    rw [hflag]
    have hp1 : (seatAt cfg r (s + k)).paper_set = some (calcPaperSet cfg r (s + k)) :=
      fillSeat_paper_of_not_broken cfg _ r (s + k) hbr
    have hhoriz : (if s + k + 1 < min (s + cfg.block_width) cfg.cols then
        let right := seatAtD (columnMajorPlan cfg) r (s + k + 1)
        if ¬ right.is_broken ∧
            (seatAt cfg r (s + k)).paper_set = right.paper_set then
          [s!"Same paper set in block {block} horizontally at row {r}, cols {s + k}-{s + k + 1}"]
        else []
      else []) = [] := by
      by_cases hh : s + k + 1 < min (s + cfg.block_width) cfg.cols
      · rw [if_pos hh]
        have hcc1 : s + k + 1 < cfg.cols := by omega
        dsimp only
        rw [seatAtD_columnMajorPlan cfg r (s + k + 1) hrmem hcc1]
        by_cases hbr2 : (r, s + k + 1) ∈ cfg.broken_seats
        · have hb2 : (seatAt cfg r (s + k + 1)).is_broken = true := by
            unfold seatAt; rw [fillSeat_of_broken _ _ _ _ hbr2]; rfl
          rw [if_neg]
          intro hcon
          rw [hb2] at hcon
          exact hcon.1 rfl
        · have hp2 : (seatAt cfg r (s + k + 1)).paper_set =
              some (calcPaperSet cfg r (s + k + 1)) :=
            fillSeat_paper_of_not_broken cfg _ r (s + k + 1) hbr2
          have e3 : (s + k + 1) % cfg.block_width = k + 1 := by
            rw [Nat.add_assoc, ← hs, Nat.mul_comm, Nat.mul_add_mod]
            exact Nat.mod_eq_of_lt (by omega)
          have hne : calcPaperSet cfg r (s + k) ≠ calcPaperSet cfg r (s + k + 1) :=
            calcPaperSet_ne_horiz cfg r (s + k) (by rw [e3, e2])
          rw [if_neg]
          intro hcon
          rw [hp1, hp2] at hcon
          exact hne (Option.some.injEq _ _ ▸ hcon.2)
      · rw [if_neg hh]
    have hvert : (if r + 1 < cfg.rows then
        let down := seatAtD (columnMajorPlan cfg) (r + 1) (s + k)
        if ¬ down.is_broken ∧
            (seatAt cfg r (s + k)).paper_set = down.paper_set then
          [s!"Same paper set vertically at col {s + k}, rows {r}-{r + 1}"]
        else []
      else []) = [] := by
      by_cases hv : r + 1 < cfg.rows
      · rw [if_pos hv]
        dsimp only
        rw [seatAtD_columnMajorPlan cfg (r + 1) (s + k) hv hcc]
        by_cases hbr2 : (r + 1, s + k) ∈ cfg.broken_seats
        · have hb2 : (seatAt cfg (r + 1) (s + k)).is_broken = true := by
            unfold seatAt; rw [fillSeat_of_broken _ _ _ _ hbr2]; rfl
          rw [if_neg]
          intro hcon
          rw [hb2] at hcon
          exact hcon.1 rfl
        · have hp2 : (seatAt cfg (r + 1) (s + k)).paper_set =
              some (calcPaperSet cfg (r + 1) (s + k)) :=
            fillSeat_paper_of_not_broken cfg _ (r + 1) (s + k) hbr2
          have hne : calcPaperSet cfg r (s + k) ≠ calcPaperSet cfg (r + 1) (s + k) :=
            calcPaperSet_ne_vert cfg r (s + k)
          rw [if_neg]
          intro hcon
          rw [hp1, hp2] at hcon
          exact hne (Option.some.injEq _ _ ▸ hcon.2)
      · rw [if_neg hv]
    rw [hhoriz, hvert]
    simp

end Algo

namespace Algo

/-- In plain numeric mode the queue-building loop hands each batch a
duplicate-free queue, and distinct batches' queues are disjoint: each step
consumes a fresh interval of the shared `next_roll` counter. -/
theorem initQueues_plain (cfg : AlgoCfg)
    (htm : ∀ b, pyTruthyStr (batchTemplate cfg b) = false) :
    (∀ b, ((initQueues cfg).1 b).Nodup) ∧
    (∀ b1 b2, b1 ≠ b2 → ∀ s, s ∈ (initQueues cfg).1 b1 →
      s ∉ (initQueues cfg).1 b2) := by
  suffices h : ∀ n : Nat,
      (∀ b, (((List.range n).foldl (buildQueuesStep cfg)
          ((fun _ => []), cfg.start_serial)).1 b).Nodup) ∧
      (∀ b1 b2, b1 ≠ b2 → ∀ s,
        s ∈ ((List.range n).foldl (buildQueuesStep cfg)
          ((fun _ => []), cfg.start_serial)).1 b1 →
        s ∉ ((List.range n).foldl (buildQueuesStep cfg)
          ((fun _ => []), cfg.start_serial)).1 b2) ∧
      (∀ b s, s ∈ ((List.range n).foldl (buildQueuesStep cfg)
          ((fun _ => []), cfg.start_serial)).1 b →
        ∃ m, m < ((List.range n).foldl (buildQueuesStep cfg)
          ((fun _ => []), cfg.start_serial)).2 ∧ s = pyIntStr m) by
    exact ⟨(h cfg.num_batches).1, (h cfg.num_batches).2.1⟩
  intro n
  induction n with
  | zero =>
    refine ⟨fun b => ?_, fun b1 b2 hne s hs => ?_, fun b s hs => ?_⟩ <;>
      simp_all [List.range_zero]
  | succ n ih =>
    simp only [List.range_succ, List.foldl_append, List.foldl_cons, List.foldl_nil]
    obtain ⟨ihN, ihD, ihV⟩ := ih
    generalize hres : (List.range n).foldl (buildQueuesStep cfg)
        ((fun _ => []), cfg.start_serial) = res at ihN ihD ihV ⊢
    obtain ⟨qs, nr⟩ := res
    have hb := htm (n + 1)
    have hstep : buildQueuesStep cfg (qs, nr) n =
        (Function.update qs (n + 1) ((List.range (batchSize cfg (n + 1))).map
          (fun j => pyIntStr (nr + j))), nr + batchSize cfg (n + 1)) := by
      simp [buildQueuesStep, hb]
    rw [hstep]
    dsimp only
    have hinj : Function.Injective (fun j : Nat => pyIntStr (nr + j)) := by
      intro a b h
      have := pyIntStr_injective h
      omega
    have hmemQ : ∀ s ∈ (List.range (batchSize cfg (n + 1))).map
        (fun j => pyIntStr (nr + j)),
        ∃ j, j < batchSize cfg (n + 1) ∧ s = pyIntStr (nr + j) := by
      intro s hs
      obtain ⟨j, hj, rfl⟩ := List.mem_map.1 hs
      exact ⟨j, List.mem_range.1 hj, rfl⟩
    refine ⟨?_, ?_, ?_⟩
    · intro b
      by_cases hbb : b = n + 1
      · subst hbb
        rw [Function.update_same]
        exact List.Nodup.map hinj (List.nodup_range _)
      · rw [Function.update_apply, if_neg hbb]
        exact ihN b
    · intro b1 b2 hne s hs1 hs2
      by_cases h1 : b1 = n + 1
      · subst h1
        rw [Function.update_same] at hs1
        rw [Function.update_apply, if_neg (Ne.symm hne)] at hs2
        obtain ⟨j, hj, rfl⟩ := hmemQ s hs1
        obtain ⟨m, hm, hsm⟩ := ihV b2 _ hs2
        have := pyIntStr_injective hsm
        omega
      · by_cases h2 : b2 = n + 1
        · subst h2
          rw [Function.update_apply, if_neg h1] at hs1
          rw [Function.update_same] at hs2
          obtain ⟨m, hm, rfl⟩ := ihV b1 s hs1
          obtain ⟨j, hj, hsj⟩ := hmemQ _ hs2
          have := pyIntStr_injective hsj
          omega
        · rw [Function.update_apply, if_neg h1] at hs1
          rw [Function.update_apply, if_neg h2] at hs2
          exact ihD b1 b2 hne s hs1 hs2
    · intro b s hs
      by_cases hbb : b = n + 1
      · subst hbb
        rw [Function.update_same] at hs
        obtain ⟨j, hj, hsj⟩ := hmemQ s hs
        exact ⟨nr + j, by omega, hsj⟩
      · rw [Function.update_apply, if_neg hbb] at hs
        obtain ⟨m, hm, hsm⟩ := ihV b s hs
        exact ⟨m, by omega, hsm⟩

end Algo

namespace Algo

/-- When no batch has a truthy template, each fill step either emits no
identifier and leaves the queues untouched, or pops the head of exactly one
batch's queue and emits it. -/
theorem fillSeat_queue_cases (cfg : AlgoCfg) (st : FillSt) (r c : Nat)
    (htm : ∀ b, pyTruthyStr (batchTemplate cfg b) = false) :
    ((fillSeat cfg st r c).1.roll_number = none ∧
      (fillSeat cfg st r c).2.queues = st.queues) ∨
    (∃ b rn rest, st.queues b = rn :: rest ∧
      (fillSeat cfg st r c).1.roll_number = some rn ∧
      (fillSeat cfg st r c).2.queues = Function.update st.queues b rest) := by
  unfold fillSeat
  by_cases hbr : (r, c) ∈ cfg.broken_seats
  · simp only [if_pos hbr]
    left
    exact ⟨by trivial, by trivial⟩
  · simp only [if_neg hbr]
    by_cases hlim : batchLimit cfg (c % cfg.num_batches + 1) ≤
        st.alloc (c % cfg.num_batches + 1)
    · simp only [if_pos hlim]
      left
      exact ⟨by trivial, by trivial⟩
    · simp only [if_neg hlim]
      have hg : ¬(pyTruthyStr (batchTemplate cfg (c % cfg.num_batches + 1)) = true ∧
          cfg.serial_mode = "global") := by
        intro hcon
        rw [htm] at hcon
        exact absurd hcon.1 (by simp)
      rw [if_neg hg]
      cases hq : st.queues (c % cfg.num_batches + 1) with
      | nil =>
        left
        exact ⟨by trivial, by trivial⟩
      | cons rn rest =>
        right
        exact ⟨c % cfg.num_batches + 1, rn, rest, hq, rfl, rfl⟩

/-- Identifiers already placed on seats stay distinct from each other and
from everything still queued, so the whole emission sequence of the fill is
duplicate-free. -/
theorem emitRolls_nodup_aux (cfg : AlgoCfg)
    (htm : ∀ b, pyTruthyStr (batchTemplate cfg b) = false) :
    ∀ (l : List (Nat × Nat)) (st : FillSt) (placed : List String),
      (∀ b, (st.queues b).Nodup) →
      (∀ b1 b2, b1 ≠ b2 → ∀ s, s ∈ st.queues b1 → s ∉ st.queues b2) →
      (∀ s ∈ placed, ∀ b, s ∉ st.queues b) →
      placed.Nodup →
      (placed ++ emitRolls cfg st l).Nodup := by
  intro l
  induction l with
  | nil =>
    intro st placed _ _ _ h4
    simpa [emitRolls] using h4
  | cons q tl ih =>
    intro st placed hN hD hP hpl
    have hq2 : (stepSt cfg st q).queues = (fillSeat cfg st q.1 q.2).2.queues := rfl
    rcases fillSeat_queue_cases cfg st q.1 q.2 htm with ⟨hr, hqs⟩ |
      ⟨b, rn, rest, hqb, hr, hqs⟩
    · have heq : emitRolls cfg st (q :: tl) = emitRolls cfg (stepSt cfg st q) tl := by
        simp [emitRolls, hr, Option.toList]
      rw [heq]
      apply ih (stepSt cfg st q) placed
      · intro b2
        rw [hq2, hqs]
        exact hN b2
      · intro b1 b2 hne s hs1
        rw [hq2, hqs] at hs1 ⊢
        exact hD b1 b2 hne s hs1
      · intro s hsp b2
        rw [hq2, hqs]
        exact hP s hsp b2
      · exact hpl
    · have heq : emitRolls cfg st (q :: tl) =
          rn :: emitRolls cfg (stepSt cfg st q) tl := by
        simp [emitRolls, hr, Option.toList]
      rw [heq]
      have hkey : placed ++ rn :: emitRolls cfg (stepSt cfg st q) tl =
          (placed ++ [rn]) ++ emitRolls cfg (stepSt cfg st q) tl := by
        simp
      rw [hkey]
      have hNb := hN b
      rw [hqb] at hNb
      have hrn_rest : rn ∉ rest := (List.nodup_cons.1 hNb).1
      have hrest_nd : rest.Nodup := (List.nodup_cons.1 hNb).2
      have hrn_mem : rn ∈ st.queues b := by
        rw [hqb]
        exact List.mem_cons_self _ _
      apply ih (stepSt cfg st q) (placed ++ [rn])
      · intro b2
        rw [hq2, hqs]
        by_cases hbb : b2 = b
        · subst hbb
          rw [Function.update_same]
          exact hrest_nd
        · rw [Function.update_apply, if_neg hbb]
          exact hN b2
      · intro b1 b2 hne s hs1
        rw [hq2, hqs] at hs1 ⊢
        have hs1' : s ∈ st.queues b1 := by
          by_cases hbb : b1 = b
          · subst hbb
            rw [Function.update_same] at hs1
            rw [hqb]
            exact List.mem_cons_of_mem _ hs1
          · rw [Function.update_apply, if_neg hbb] at hs1
            exact hs1
        have hnot := hD b1 b2 hne s hs1'
        intro hs2
        apply hnot
        by_cases hbb : b2 = b
        · subst hbb
          rw [Function.update_same] at hs2
          rw [hqb]
          exact List.mem_cons_of_mem _ hs2
        · rw [Function.update_apply, if_neg hbb] at hs2
          exact hs2
      · intro s hsp b2
        rw [hq2, hqs]
        rcases List.mem_append.1 hsp with hsp | hsp
        · have hps := hP s hsp
          by_cases hbb : b2 = b
          · subst hbb
            rw [Function.update_same]
            intro hmem
            exact hps b2 (by rw [hqb]; exact List.mem_cons_of_mem _ hmem)
          · rw [Function.update_apply, if_neg hbb]
            exact hps b2
        · have hs_rn : s = rn := by simpa using hsp
          subst hs_rn
          by_cases hbb : b2 = b
          · subst hbb
            rw [Function.update_same]
            exact hrn_rest
          · rw [Function.update_apply, if_neg hbb]
            exact hD b b2 (fun h => hbb h.symm) s hrn_mem
      · rw [List.nodup_append]
        refine ⟨hpl, List.nodup_singleton _, ?_⟩
        intro x hx1 hx2
        have hx_rn : x = rn := by simpa using hx2
        subst hx_rn
        exact hP x hx1 b hrn_mem

/-- In plain numeric mode, the identifiers the column-major fill hands out
over any walk are pairwise distinct. -/
theorem emitRolls_nodup (cfg : AlgoCfg)
    (htm : ∀ b, pyTruthyStr (batchTemplate cfg b) = false) (l : List (Nat × Nat)) :
    (emitRolls cfg (initFillSt cfg) l).Nodup := by
  obtain ⟨hN, hD⟩ := initQueues_plain cfg htm
  have h := emitRolls_nodup_aux cfg htm l (initFillSt cfg) [] hN hD
    (by simp) List.nodup_nil
  simpa using h

end Algo

namespace Algo

theorem emitRolls_append (cfg : AlgoCfg) :
    ∀ (l1 l2 : List (Nat × Nat)) (st : FillSt),
      emitRolls cfg st (l1 ++ l2) =
        emitRolls cfg st l1 ++ emitRolls cfg (l1.foldl (stepSt cfg) st) l2 := by
  intro l1
  induction l1 with
  | nil => intro l2 st; rfl
  | cons q tl ih =>
    intro l2 st
    simp only [List.cons_append, emitRolls, List.foldl_cons, List.append_assoc,
      List.append_eq, ih]

theorem emitRolls_snoc (cfg : AlgoCfg) (c r : Nat)
    (ih : emitRolls cfg (initFillSt cfg) (posBefore cfg c r) =
      (posBefore cfg c r).flatMap
        (fun q => ((seatAt cfg q.1 q.2).roll_number).toList)) :
    emitRolls cfg (initFillSt cfg) (posBefore cfg c (r + 1)) =
      (posBefore cfg c (r + 1)).flatMap
        (fun q => ((seatAt cfg q.1 q.2).roll_number).toList) := by
  rw [posBefore_succ_row, emitRolls_append, ih, List.flatMap_append]
  congr 1

/-- The identifiers the fill emits, position by position, are exactly the
identifiers stored in the finished grid, in column-major order. -/
theorem emitRolls_eq_flatMap (cfg : AlgoCfg) : ∀ c r,
    emitRolls cfg (initFillSt cfg) (posBefore cfg c r) =
      (posBefore cfg c r).flatMap
        (fun q => ((seatAt cfg q.1 q.2).roll_number).toList) := by
  intro c
  induction c with
  | zero =>
    intro r
    induction r with
    | zero => rfl
    | succ r ihr => exact emitRolls_snoc cfg 0 r ihr
  | succ c ihc =>
    intro r
    induction r with
    | zero =>
      rw [posBefore_succ_col]
      exact ihc cfg.rows
    | succ r ihr => exact emitRolls_snoc cfg (c + 1) r ihr

theorem nodup_rowMajorPositions (cfg : AlgoCfg) : (rowMajorPositions cfg).Nodup := by
  unfold rowMajorPositions
  rw [List.nodup_flatMap]
  constructor
  · intro r _
    exact List.Nodup.map (fun a b h => congrArg Prod.snd h) (List.nodup_range _)
  · refine (List.pairwise_lt_range _).imp ?_
    intro a b hab
    intro x hx1 hx2
    simp only [List.mem_map, List.mem_range] at hx1 hx2
    obtain ⟨c1, _, he1⟩ := hx1
    obtain ⟨c2, _, he2⟩ := hx2
    exact absurd (congrArg Prod.fst (he1.trans he2.symm)) (Nat.ne_of_lt hab)

theorem colMajorAll_eq (cfg : AlgoCfg) :
    colMajorAll cfg = (List.range cfg.cols).flatMap
      (fun c2 => (List.range cfg.rows).map (fun r2 => (r2, c2))) := by
  simp [colMajorAll, posBefore]

theorem nodup_colMajorAll (cfg : AlgoCfg) : (colMajorAll cfg).Nodup := by
  rw [colMajorAll_eq, List.nodup_flatMap]
  constructor
  · intro c _
    exact List.Nodup.map (fun a b h => congrArg Prod.fst h) (List.nodup_range _)
  · refine (List.pairwise_lt_range _).imp ?_
    intro a b hab
    intro x hx1 hx2
    simp only [List.mem_map, List.mem_range] at hx1 hx2
    obtain ⟨r1, _, he1⟩ := hx1
    obtain ⟨r2, _, he2⟩ := hx2
    exact absurd (congrArg Prod.snd (he1.trans he2.symm)) (Nat.ne_of_lt hab)

theorem mem_rowMajorPositions (cfg : AlgoCfg) (a b : Nat) :
    (a, b) ∈ rowMajorPositions cfg ↔ a < cfg.rows ∧ b < cfg.cols := by
  unfold rowMajorPositions
  simp only [List.mem_flatMap, List.mem_map, List.mem_range, Prod.mk.injEq]
  constructor
  · rintro ⟨r, hr, c, hc, rfl, rfl⟩
    exact ⟨hr, hc⟩
  · rintro ⟨h1, h2⟩
    exact ⟨a, h1, b, h2, rfl, rfl⟩

theorem mem_colMajorAll (cfg : AlgoCfg) (a b : Nat) :
    (a, b) ∈ colMajorAll cfg ↔ a < cfg.rows ∧ b < cfg.cols := by
  rw [colMajorAll_eq]
  simp only [List.mem_flatMap, List.mem_map, List.mem_range, Prod.mk.injEq]
  constructor
  · rintro ⟨c, hc, r, hr, rfl, rfl⟩
    exact ⟨hr, hc⟩
  · rintro ⟨h1, h2⟩
    exact ⟨b, h2, a, h1, rfl, rfl⟩

/-- The row-major validation sweep visits exactly the positions of the
column-major fill, reordered. -/
theorem rowMajor_perm_colMajor (cfg : AlgoCfg) :
    List.Perm (rowMajorPositions cfg) (colMajorAll cfg) := by
  refine (List.perm_ext_iff_of_nodup (nodup_rowMajorPositions cfg)
    (nodup_colMajorAll cfg)).2 ?_
  intro q
  obtain ⟨a, b⟩ := q
  rw [mem_rowMajorPositions, mem_colMajorAll]

/-- On the stored column-major plan, the check-3 sweep processes exactly the
grid's identifiers: broken seats store no identifier. -/
theorem sweepRolls_plan (cfg : AlgoCfg) :
    sweepRolls (columnMajorPlan cfg) (rowMajorPositions cfg) =
      (rowMajorPositions cfg).flatMap
        (fun q => ((seatAt cfg q.1 q.2).roll_number).toList) := by
  unfold sweepRolls
  apply List.flatMap_congr
  intro q hq
  obtain ⟨a, b⟩ := q
  rw [mem_rowMajorPositions] at hq
  dsimp only
  rw [seatAtD_columnMajorPlan cfg a b hq.1 hq.2]
  by_cases hbr : (a, b) ∈ cfg.broken_seats
  · have hseat : seatAt cfg a b = brokenSeat a b := by
      unfold seatAt
      rw [fillSeat_of_broken _ _ _ _ hbr]
    rw [hseat]
    rfl
  · have hflag : (seatAt cfg a b).is_broken = false :=
      fillSeat_not_broken_flag cfg _ a b hbr
    rw [hflag]
    simp

/-- In plain numeric mode the identifiers stored on the plan, in validation
sweep order, are pairwise distinct. -/
theorem plan_rolls_nodup (cfg : AlgoCfg)
    (htm : ∀ b, pyTruthyStr (batchTemplate cfg b) = false) :
    (sweepRolls (columnMajorPlan cfg) (rowMajorPositions cfg)).Nodup := by
  have h1 : (emitRolls cfg (initFillSt cfg) (colMajorAll cfg)).Nodup :=
    emitRolls_nodup cfg htm (colMajorAll cfg)
  have h2 : ((colMajorAll cfg).flatMap
      (fun q => ((seatAt cfg q.1 q.2).roll_number).toList)).Nodup := by
    have he : colMajorAll cfg = posBefore cfg cfg.cols 0 := rfl
    rw [he] at h1 ⊢
    rw [← emitRolls_eq_flatMap cfg cfg.cols 0]
    exact h1
  have hperm := List.Perm.flatMap_right
    (fun q : Nat × Nat => ((seatAt cfg q.1 q.2).roll_number).toList)
    (rowMajor_perm_colMajor cfg)
  rw [sweepRolls_plan]
  exact hperm.symm.nodup h2

end Algo

namespace Algo

/-- When the identifiers a check-3 sweep will process are pairwise distinct,
the sweep emits no duplicate violations and its `seen_rolls` set ends up
exactly as large as `assigned_count`, so the mismatch check passes too. -/
theorem check3_clean (cfg : AlgoCfg) (plan : List (List Seat))
    (h : (sweepRolls plan (rowMajorPositions cfg)).Nodup) :
    check3dups cfg plan = [] ∧ check3mismatch cfg plan = [] := by
  have main : ∀ (l : List (Nat × Nat)) (acc : Chk3St),
      (acc.seen ++ sweepRolls plan l).Nodup → acc.dups = [] →
      acc.seen.length = acc.assigned →
      (l.foldl (check3Step plan) acc).dups = [] ∧
        (l.foldl (check3Step plan) acc).seen.length =
          (l.foldl (check3Step plan) acc).assigned := by
    intro l
    induction l with
    | nil =>
      intro acc h1 h2 h3
      exact ⟨h2, h3⟩
    | cons q tl ih =>
      intro acc h1 h2 h3
      rw [List.foldl_cons]
      by_cases hbr : (seatAtD plan q.1 q.2).is_broken = true
      · have hstep : check3Step plan acc q = acc := by
          simp [check3Step, hbr]
        rw [hstep]
        exact ih acc (by simpa [sweepRolls, List.flatMap_cons, hbr] using h1) h2 h3
      · cases hrn : (seatAtD plan q.1 q.2).roll_number with
        | none =>
          have hstep : check3Step plan acc q = acc := by
            simp [check3Step, hbr, hrn]
          rw [hstep]
          exact ih acc
            (by simpa [sweepRolls, List.flatMap_cons, hbr, hrn, Option.toList] using h1)
            h2 h3
        | some rn =>
          have h1' : (acc.seen ++ rn :: sweepRolls plan tl).Nodup := by
            simpa [sweepRolls, List.flatMap_cons, hbr, hrn, Option.toList] using h1
          have hnotin : rn ∉ acc.seen := by
            intro hmem
            rcases List.nodup_append.1 h1' with ⟨_, _, hdisj⟩
            exact hdisj hmem (List.mem_cons_self rn _)
          have hstep : check3Step plan acc q =
              { seen := acc.seen ++ [rn], assigned := acc.assigned + 1,
                dups := acc.dups } := by
            simp [check3Step, hbr, hrn, hnotin]
          rw [hstep]
          apply ih
          · simpa [List.append_assoc] using h1'
          · simpa using h2
          · simp [h3]
  have base := main (rowMajorPositions cfg) ⟨[], 0, []⟩ (by simpa using h) rfl rfl
  have hb1 : (check3Fold cfg plan).dups = [] := base.1
  have hb2 : (check3Fold cfg plan).seen.length = (check3Fold cfg plan).assigned := base.2
  refine ⟨hb1, ?_⟩
  simp [check3mismatch, hb2]

end Algo

/-- C10: in plain numeric identifier mode (no roll template, no batch
prefixes/year, no start-roll seeds) a column-major configuration with
positive rows, columns and batch count generates a plan that
`validate_constraints` accepts outright, returning `(true, [])`: the
adjacency check is off, the positional checkerboard alternates paper sets
horizontally inside each block and vertically in every column, the batches'
numeric identifier ranges are pairwise disjoint segments of the shared
counter so no duplicate or count mismatch can arise, and the block-count
check compares two identical computations. -/
theorem C10_plain_mode_validate (p : Algo.AlgoParams)
    (h1 : 0 < p.rows) (h2 : 0 < p.cols) (h3 : 0 < p.num_batches)
    (h4 : p.batch_by_column = true) (h5 : p.enforce_no_adjacent_batches = false)
    (h6 : p.roll_template = none) (h7 : p.batch_prefixes = [])
    (h8 : p.year = none) (h9 : p.start_rolls = []) :
    Algo.validate_constraints (Algo.generate_seating (Algo.mkAlgo p)).1 = (true, []) := by
  have hbc : (Algo.mkAlgo p).cfg.batch_by_column = true := h4
  have hnb : (Algo.mkAlgo p).cfg.num_batches ≠ 0 := by
    show p.num_batches ≠ 0
    omega
  have hstate : (Algo.generate_seating (Algo.mkAlgo p)).1 =
      { cfg := (Algo.mkAlgo p).cfg,
        seating_plan := Algo.columnMajorPlan (Algo.mkAlgo p).cfg } := by
    simp [Algo.generate_seating, hbc, hnb]
  rw [hstate]
  unfold Algo.validate_constraints
  dsimp only
  have hc1 : Algo.check1 (Algo.mkAlgo p).cfg
      (Algo.columnMajorPlan (Algo.mkAlgo p).cfg) = [] := by
    have he : (Algo.mkAlgo p).cfg.enforce_no_adjacent_batches = false := h5
    simp [Algo.check1, he]
  have hc2 := Algo.check2_plain (Algo.mkAlgo p).cfg
  have hbt : (Algo.mkAlgo p).cfg.batch_templates = [] := by
    simp [Algo.mkAlgo, h9]
  have htm : ∀ b, pyTruthyStr (Algo.batchTemplate (Algo.mkAlgo p).cfg b) = false := by
    intro b
    rw [Algo.batchTemplate_plain _ h6 h7 hbt b]
    rfl
  have hnd := Algo.plan_rolls_nodup (Algo.mkAlgo p).cfg htm
  obtain ⟨hc3d, hc3m⟩ := Algo.check3_clean (Algo.mkAlgo p).cfg _ hnd
  have hc4 : Algo.check4 (Algo.mkAlgo p).cfg = [] := by
    simp [Algo.check4, Algo.mkAlgo]
  rw [hc1, hc2, hc3d, hc3m, hc4]
  rfl

/-- Witness for C10 at a plain 2×2 single-batch configuration. -/
theorem C10_plain_mode_validate_witness :
    (0 < pC10.rows ∧ 0 < pC10.cols ∧ 0 < pC10.num_batches ∧
      pC10.batch_by_column = true ∧ pC10.enforce_no_adjacent_batches = false ∧
      pC10.roll_template = none ∧ pC10.batch_prefixes = [] ∧
      pC10.year = none ∧ pC10.start_rolls = []) ∧
    Algo.validate_constraints (Algo.generate_seating (Algo.mkAlgo pC10)).1 = (true, []) :=
  ⟨⟨by decide, by decide, by decide, rfl, rfl, rfl, rfl, rfl, rfl⟩,
    C10_plain_mode_validate pC10 (by decide) (by decide) (by decide)
      rfl rfl rfl rfl rfl rfl⟩
